import Mathlib

/-!
Verification of the realtime translation session bridge (binary protocol
variant): the manual protobuf wire codec (ProtobufWriter,
buildTranslateRequest, ProtobufReader, parseTranslateResponse), the audio
egress playback queue hook (useAudioPlayer with mute and a per-turn
playback queue), and the per-connection session bridge (browser WebSocket
handlers driving one upstream connection).

JavaScript numeric semantics are embedded explicitly: the bitwise
operators coerce to 32-bit integers, so `x | y`, `x & y`, `x << k` work on
the two's-complement 32-bit truncation, and `x >>> k` on the unsigned
32-bit truncation.  Strings are represented by their UTF-8 byte lists,
buffers by lists of byte values.
-/

/-- ToUint32: the unsigned 32-bit truncation of a JS number (integral case). -/
def jsUint32 (n : Int) : Nat := (n % 4294967296).toNat

/-- ToInt32: the signed 32-bit truncation of a JS number (integral case). -/
def jsToInt32 (n : Int) : Int :=
  if jsUint32 n < 2147483648 then (jsUint32 n : Int) else (jsUint32 n : Int) - 4294967296

/-- JS `a | b` on integral values: bitwise or on the 32-bit truncations, signed result. -/
def jsOr32 (a b : Int) : Int := jsToInt32 ((jsUint32 a ||| jsUint32 b : Nat) : Int)

/-- JS `a << k` on integral values: shift count is taken mod 32, result is signed 32-bit. -/
def jsShl32 (a : Int) (k : Nat) : Int := jsToInt32 (((jsUint32 a <<< (k % 32) : Nat)) : Int)

/-- JS `a >>> k` on integral values: shift count mod 32, unsigned 32-bit result. -/
def jsShrU32 (a : Int) (k : Nat) : Nat := jsUint32 a >>> (k % 32)

/-- Indexing a Buffer: out-of-range (including negative) indices yield
`undefined`, which behaves as 0 under the bitwise operators used by the
reader, so it is modelled as the byte 0. -/
def jsByte (buf : List Nat) (offset : Int) : Nat :=
  if offset < 0 then 0 else (buf[offset.toNat]?).getD 0

/-- Buffer.slice(start, end): negative indices count from the end of the
buffer, both bounds are clamped to the buffer, and an empty slice results
when the normalized end does not exceed the normalized start. -/
def jsSlice (buf : List Nat) (start stop : Int) : List Nat :=
  let len : Int := buf.length
  let s : Int := if start < 0 then max (len + start) 0 else min start len
  let e : Int := if stop < 0 then max (len + stop) 0 else min stop len
  (buf.drop s.toNat).take (e - s).toNat

/-- Loop body of ProtobufWriter.writeVarint, with an explicit iteration
bound.  Each iteration emits `(value & 0x7f) | 0x80` (for a nonnegative
integral value this is `value % 128 ||| 0x80`) and then performs
`value >>>= 7`, i.e. replaces value by `(value mod 2^32) / 128`; the loop
exits emitting the remaining value once it is at most 127.  The fuel-zero
case is unreachable for the bound used by `writeVarint` (a 32-bit
truncated value needs at most five 7-bit groups). -/
def writeVarintAux : Nat → Nat → List Nat
  | 0, v => [v]
  | fuel + 1, v =>
    if 127 < v then ((v % 128) ||| 128) :: writeVarintAux fuel ((v % 4294967296) / 128)
    else [v]

/-- ProtobufWriter.writeVarint: the emitted bytes. -/
def writeVarint (v : Nat) : List Nat := writeVarintAux 5 v

/-- ProtobufWriter.writeTag: `writeVarint((fieldNumber << 3) | wireType)`.
For the field numbers used (all far below 2^28) the JS 32-bit shift and or
agree with the Nat operations. -/
def writeTag (fieldNumber wireType : Nat) : List Nat :=
  writeVarint ((fieldNumber <<< 3) ||| wireType)

/-- ProtobufWriter.writeString: skips a falsy (empty) string, otherwise
emits tag (wire type 2), length varint, and the UTF-8 bytes.  The string
is represented by its UTF-8 byte list. -/
def writeString (fieldNumber : Nat) (s : List Nat) : List Nat :=
  if s = [] then [] else writeTag fieldNumber 2 ++ writeVarint s.length ++ s

/-- ProtobufWriter.writeBytes: skips an absent or empty value, otherwise
emits tag (wire type 2), length varint, and the bytes. -/
def writeBytes (fieldNumber : Nat) (v : List Nat) : List Nat :=
  if v = [] then [] else writeTag fieldNumber 2 ++ writeVarint v.length ++ v

/-- ProtobufWriter.writeInt32: skips the value 0 (and undefined), otherwise
emits tag (wire type 0) and the value varint. -/
def writeInt32 (fieldNumber : Nat) (v : Nat) : List Nat :=
  if v = 0 then [] else writeTag fieldNumber 0 ++ writeVarint v

/-- ProtobufWriter.writeMessage: skips an empty nested message, otherwise
emits tag (wire type 2), length varint, and the already-encoded message. -/
def writeMessage (fieldNumber : Nat) (m : List Nat) : List Nat :=
  if m = [] then [] else writeTag fieldNumber 2 ++ writeVarint m.length ++ m

/-- The `user` block of a TranslateRequest (field 3); strings as UTF-8 bytes. -/
structure UserOptions where
  uid : List Nat
  did : List Nat
  platform : List Nat
  sdkVersion : List Nat
deriving DecidableEq

/-- The `source_audio` block of a TranslateRequest (field 4); absent
subfields are the falsy defaults. -/
structure SourceAudioOptions where
  format : List Nat
  rate : Nat
  bits : Nat
  channel : Nat
  binaryData : List Nat
deriving DecidableEq

/-- The `target_audio` block of a TranslateRequest (field 5). -/
structure TargetAudioOptions where
  format : List Nat
  rate : Nat
deriving DecidableEq

/-- The `request` (ReqParams) block of a TranslateRequest (field 6). -/
structure ReqParamsOptions where
  mode : List Nat
  sourceLanguage : List Nat
  targetLanguage : List Nat
deriving DecidableEq

/-- The options object accepted by buildTranslateRequest.  A missing
`sessionId` is the empty (falsy) string; missing blocks are `none`. -/
structure TranslateRequestOptions where
  sessionId : List Nat
  event : Nat
  user : Option UserOptions
  sourceAudio : Option SourceAudioOptions
  targetAudio : Option TargetAudioOptions
  request : Option ReqParamsOptions
deriving DecidableEq

/-- buildTranslateRequest: encodes the outbound TranslateRequest protobuf
message, field by field, exactly as the source: field 1 request_meta
(nested SessionID at field 6), field 2 event, field 3 user, field 4
source_audio, field 5 target_audio, field 6 request parameters. -/
def buildTranslateRequest (o : TranslateRequestOptions) : List Nat :=
  (if o.sessionId ≠ [] then writeMessage 1 (writeString 6 o.sessionId) else [])
  ++ writeInt32 2 o.event
  ++ (match o.user with
      | some u =>
        writeMessage 3 (writeString 1 u.uid ++ writeString 2 u.did
          ++ writeString 3 u.platform ++ writeString 4 u.sdkVersion)
      | none => [])
  ++ (match o.sourceAudio with
      | some a =>
        writeMessage 4 ((if a.format ≠ [] then writeString 4 a.format else [])
          ++ (if a.rate ≠ 0 then writeInt32 7 a.rate else [])
          ++ (if a.bits ≠ 0 then writeInt32 8 a.bits else [])
          ++ (if a.channel ≠ 0 then writeInt32 9 a.channel else [])
          ++ (if a.binaryData ≠ [] then writeBytes 14 a.binaryData else []))
      | none => [])
  ++ (match o.targetAudio with
      | some a =>
        writeMessage 5 ((if a.format ≠ [] then writeString 4 a.format else [])
          ++ (if a.rate ≠ 0 then writeInt32 7 a.rate else []))
      | none => [])
  ++ (match o.request with
      | some r =>
        writeMessage 6 ((if r.mode ≠ [] then writeString 1 r.mode else [])
          ++ (if r.sourceLanguage ≠ [] then writeString 2 r.sourceLanguage else [])
          ++ (if r.targetLanguage ≠ [] then writeString 3 r.targetLanguage else []))
      | none => [])

/-- Loop body of ProtobufReader.readVarint with explicit fuel: while the
offset is inside the buffer, read a byte, or `(byte & 0x7f) << shift` into
the 32-bit result, stop when the continuation bit is clear, else advance
the shift by 7.  A truncated varint simply returns the value accumulated
so far. -/
def readVarintAux : Nat → List Nat → Int → Int → Nat → Int × Int
  | 0, _, offset, result, _ => (result, offset)
  | fuel + 1, buf, offset, result, shift =>
    if offset < (buf.length : Int) then
      let byte := jsByte buf offset
      let result' := jsOr32 result (jsShl32 ((byte &&& 127 : Nat) : Int) shift)
      if byte &&& 128 = 0 then (result', offset + 1)
      else readVarintAux fuel buf (offset + 1) result' (shift + 7)
    else (result, offset)

/-- ProtobufReader.readVarint as a function of buffer and offset,
returning the value and the new offset.  The fuel bound covers every
iteration the loop can make (the offset strictly increases while below
the buffer length). -/
def readVarintLoop (buf : List Nat) (offset result : Int) (shift : Nat) : Int × Int :=
  readVarintAux (((buf.length : Int) - offset).toNat + 1) buf offset result shift

/-- ProtobufReader: an immutable buffer plus a mutable offset. -/
structure ProtobufReader where
  buffer : List Nat
  offset : Int
deriving DecidableEq

/-- ProtobufReader.readVarint. -/
def ProtobufReader.readVarint (r : ProtobufReader) : Int × ProtobufReader :=
  let p := readVarintLoop r.buffer r.offset 0 0
  (p.1, ⟨r.buffer, p.2⟩)

/-- ProtobufReader.readBytes: slices `length` bytes (clamped to the
buffer) and advances the offset by `length` - even past the end, or
backwards when `length` is negative. -/
def ProtobufReader.readBytes (r : ProtobufReader) (length : Int) : List Nat × ProtobufReader :=
  (jsSlice r.buffer r.offset (r.offset + length), ⟨r.buffer, r.offset + length⟩)

/-- ProtobufReader.readString: reads bytes and decodes UTF-8; strings are
modelled by their byte lists, so this is readBytes. -/
def ProtobufReader.readString (r : ProtobufReader) (length : Int) : List Nat × ProtobufReader :=
  r.readBytes length

/-- ProtobufReader.hasMore. -/
def ProtobufReader.hasMore (r : ProtobufReader) : Bool :=
  r.offset < (r.buffer.length : Int)

/-- The response_meta object built by parseTranslateResponse; the
StatusCode property is created only when its field appears. -/
structure ResponseMeta where
  SessionID : List Nat := []
  Sequence : Int := 0
  Message : List Nat := []
  StatusCode : Option Int := none
deriving DecidableEq

/-- The result object of parseTranslateResponse, with its initial
defaults; the mutedDurationMs property is created only when field 8
appears. -/
structure TranslateResponse where
  event : Int := 0
  text : List Nat := []
  data : List Nat := []
  responseMeta : ResponseMeta := {}
  startTime : Int := 0
  endTime : Int := 0
  spkChg : Bool := false
  mutedDurationMs : Option Int := none
deriving DecidableEq

/-- The nested while-loop of parseTranslateResponse over a field-1
payload (response_meta).  Fuel-indexed because the loop need not
terminate on adversarial payloads (a negative decoded length moves the
offset backwards); `none` means the fuel ran out before the loop ended. -/
def parseMetaLoop : Nat → ProtobufReader → ResponseMeta → Option ResponseMeta
  | 0, _, _ => none
  | fuel + 1, r, meta =>
    if r.hasMore then
      let (metaTag, r1) := r.readVarint
      let metaField := jsShrU32 metaTag 3
      let metaWire := jsUint32 metaTag &&& 7
      if metaWire = 0 then
        let (val, r2) := r1.readVarint
        let meta' :=
          if metaField = 2 then { meta with Sequence := val }
          else if metaField = 3 then { meta with StatusCode := some val }
          else meta
        parseMetaLoop fuel r2 meta'
      else if metaWire = 2 then
        let (len, r2) := r1.readVarint
        let (str, r3) := r2.readString len
        let meta' :=
          if metaField = 1 then { meta with SessionID := str }
          else if metaField = 4 then { meta with Message := str }
          else meta
        parseMetaLoop fuel r3 meta'
      else
        parseMetaLoop fuel r1 meta
    else some meta

/-- The main while-loop of parseTranslateResponse: read a tag, split it
into field number (`tag >>> 3`) and wire type (`tag & 0x7`), then
dispatch: wire type 0 reads a varint into event/startTime/endTime/
spkChg/mutedDurationMs, wire type 2 reads a length and a byte slice into
responseMeta/data/text, wire type 5 skips 4 bytes, wire type 1 skips 8
bytes, and any other wire type consumes only the tag.  Fuel-indexed
because the loop need not terminate (see parseMetaLoop); `none` means the
fuel ran out. -/
def parseLoop : Nat → ProtobufReader → TranslateResponse → Option TranslateResponse
  | 0, _, _ => none
  | fuel + 1, r, result =>
    if r.hasMore then
      let (tag, r1) := r.readVarint
      let fieldNumber := jsShrU32 tag 3
      let wireType := jsUint32 tag &&& 7
      if wireType = 0 then
        let (varint, r2) := r1.readVarint
        let result' :=
          if fieldNumber = 2 then { result with event := varint }
          else if fieldNumber = 5 then { result with startTime := varint }
          else if fieldNumber = 6 then { result with endTime := varint }
          else if fieldNumber = 7 then { result with spkChg := varint != 0 }
          else if fieldNumber = 8 then { result with mutedDurationMs := some varint }
          else result
        parseLoop fuel r2 result'
      else if wireType = 2 then
        let (length, r2) := r1.readVarint
        let (bytes, r3) := r2.readBytes length
        if fieldNumber = 1 then
          match parseMetaLoop fuel ⟨bytes, 0⟩ result.responseMeta with
          | none => none
          | some m => parseLoop fuel r3 { result with responseMeta := m }
        else if fieldNumber = 3 then parseLoop fuel r3 { result with data := bytes }
        else if fieldNumber = 4 then parseLoop fuel r3 { result with text := bytes }
        else parseLoop fuel r3 result
      else if wireType = 5 then parseLoop fuel ⟨r1.buffer, r1.offset + 4⟩ result
      else if wireType = 1 then parseLoop fuel ⟨r1.buffer, r1.offset + 8⟩ result
      else parseLoop fuel r1 result
    else some result

/-- parseTranslateResponse: run the parse loop from offset 0 on the given
buffer with the default result object.  The fuel `length + 1` suffices
whenever every iteration advances the offset (in particular on every
buffer the writer can produce); `none` reports a run that exceeds it,
i.e. a diverging parse. -/
def parseTranslateResponse (buffer : List Nat) : Option TranslateResponse :=
  parseLoop (buffer.length + 1) ⟨buffer, 0⟩ {}

/-! ### Field-level view of the writer output

The encoder emits a concatenation of self-delimiting fields.  `EField`
names the three shapes buildTranslateRequest produces - a varint field, a
length-delimited field other than field 1, and field 1 carrying the
request_meta message `writeString 6 sessionId` - together with their byte
encodings and the action the response parser takes on each. -/

/-- One emitted top-level protobuf field of a TranslateRequest. -/
inductive EField where
  | varintF (fieldNumber v : Nat)
  | lenF (fieldNumber : Nat) (payload : List Nat)
  | metaF (sessionId : List Nat)
deriving DecidableEq

/-- The bytes the writer emits for one field. -/
def EField.bytes : EField → List Nat
  | .varintF f v => writeTag f 0 ++ writeVarint v
  | .lenF f p => writeTag f 2 ++ writeVarint p.length ++ p
  | .metaF sid =>
    writeTag 1 2 ++ writeVarint (writeString 6 sid).length ++ writeString 6 sid

/-- The action parseTranslateResponse takes on a wire-type-0 field. -/
def applyVarintField (f v : Nat) (result : TranslateResponse) : TranslateResponse :=
  if f = 2 then { result with event := (v : Int) }
  else if f = 5 then { result with startTime := (v : Int) }
  else if f = 6 then { result with endTime := (v : Int) }
  else if f = 7 then { result with spkChg := (v : Int) != 0 }
  else if f = 8 then { result with mutedDurationMs := some (v : Int) }
  else result

/-- The action parseTranslateResponse takes on a wire-type-2 field other
than field 1. -/
def applyLenField (f : Nat) (p : List Nat) (result : TranslateResponse) : TranslateResponse :=
  if f = 3 then { result with data := p }
  else if f = 4 then { result with text := p }
  else result

/-- The action of one emitted field on the parse result: field 1 carrying
`writeString 6 sid` leaves the result unchanged, because the nested
SessionID sits at meta field 6 while the response_meta parser only reads
meta fields 1, 2, 3 and 4. -/
def EField.apply : EField → TranslateResponse → TranslateResponse
  | .varintF f v, result => applyVarintField f v result
  | .lenF f p, result => applyLenField f p result
  | .metaF _, result => result

/-- Well-formedness of an emitted field: field numbers small enough for
the tag varint, values and payload lengths below 2^31 so varints decode
to themselves, field 1 reserved for metaF, and metaF nonempty. -/
def EField.wf : EField → Prop
  | .varintF f v => f < 268435456 ∧ v < 2147483648
  | .lenF f p => f < 268435456 ∧ f ≠ 1 ∧ p.length < 2147483648
  | .metaF sid => sid ≠ [] ∧ sid.length < 16777216

/-- Concatenated bytes of a field list. -/
def efsBytes : List EField → List Nat
  | [] => []
  | fld :: rest => fld.bytes ++ efsBytes rest

/-- The top-level fields buildTranslateRequest emits for given options,
in emission order, with the falsy-skip behaviour of the writer made
explicit. -/
def fieldsOf (o : TranslateRequestOptions) : List EField :=
  (if o.sessionId ≠ [] then [EField.metaF o.sessionId] else [])
  ++ (if o.event ≠ 0 then [EField.varintF 2 o.event] else [])
  ++ (match o.user with
      | some u =>
        let p := writeString 1 u.uid ++ writeString 2 u.did
          ++ writeString 3 u.platform ++ writeString 4 u.sdkVersion
        if p ≠ [] then [EField.lenF 3 p] else []
      | none => [])
  ++ (match o.sourceAudio with
      | some a =>
        let p := (if a.format ≠ [] then writeString 4 a.format else [])
          ++ (if a.rate ≠ 0 then writeInt32 7 a.rate else [])
          ++ (if a.bits ≠ 0 then writeInt32 8 a.bits else [])
          ++ (if a.channel ≠ 0 then writeInt32 9 a.channel else [])
          ++ (if a.binaryData ≠ [] then writeBytes 14 a.binaryData else [])
        if p ≠ [] then [EField.lenF 4 p] else []
      | none => [])
  ++ (match o.targetAudio with
      | some a =>
        let p := (if a.format ≠ [] then writeString 4 a.format else [])
          ++ (if a.rate ≠ 0 then writeInt32 7 a.rate else [])
        if p ≠ [] then [EField.lenF 5 p] else []
      | none => [])
  ++ (match o.request with
      | some r =>
        let p := (if r.mode ≠ [] then writeString 1 r.mode else [])
          ++ (if r.sourceLanguage ≠ [] then writeString 2 r.sourceLanguage else [])
          ++ (if r.targetLanguage ≠ [] then writeString 3 r.targetLanguage else [])
        if p ≠ [] then [EField.lenF 6 p] else []
      | none => [])

/-- Size bounds on the options under which every emitted varint value is
below 2^31: the event code and the numeric audio parameters fit in 31
bits and every string or byte payload is shorter than 2^24 bytes. -/
def TranslateRequestOptions.Bounded (o : TranslateRequestOptions) : Prop :=
  o.event < 2147483648 ∧ o.sessionId.length < 16777216
  ∧ (∀ u, o.user = some u → u.uid.length < 16777216 ∧ u.did.length < 16777216
      ∧ u.platform.length < 16777216 ∧ u.sdkVersion.length < 16777216)
  ∧ (∀ a, o.sourceAudio = some a → a.format.length < 16777216
      ∧ a.rate < 2147483648 ∧ a.bits < 2147483648 ∧ a.channel < 2147483648
      ∧ a.binaryData.length < 16777216)
  ∧ (∀ a, o.targetAudio = some a → a.format.length < 16777216 ∧ a.rate < 2147483648)
  ∧ (∀ r, o.request = some r → r.mode.length < 16777216
      ∧ r.sourceLanguage.length < 16777216 ∧ r.targetLanguage.length < 16777216)

/-! ### Audio egress playback queue (useAudioPlayer hook)

State and events of the mute-aware audio player hook: `queueAudio` pushes
an arriving fragment into the chunk buffer, `playQueuedAudio` flushes the
buffer (discarding it when muted) onto the per-turn playback queue and
starts `processQueue`, which plays one turn at a time, resuming from the
`onended` callback of the audio element.  Fragments are abstract ids;
handing a combined turn to the output device and the device finishing it
are recorded in a ghost trace. -/

/-- One observable playback action at the output device: a whole turn
(the combined chunk list, in arrival order) is handed over, or finishes. -/
inductive PlayAct where
  | hand (turn : List Nat)
  | done (turn : List Nat)
deriving DecidableEq

/-- State of the useAudioPlayer hook: the refs of the source plus ghost
fields recording what reached the output device (`trace`) and every turn
ever pushed onto the playback queue (`enqueued`). -/
structure PlayerState where
  audioChunks : List Nat
  playbackQueue : List (List Nat)
  isMuted : Bool
  isProcessing : Bool
  playing : Option (List Nat)
  trace : List PlayAct
  enqueued : List (List Nat)
deriving DecidableEq

/-- The shift-and-skip of the processQueue while loop: pop queue entries,
skipping empty ones, until a playable turn appears. -/
def popPlay : List (List Nat) → Option (List Nat) × List (List Nat)
  | [] => (none, [])
  | c :: rest => if c = [] then popPlay rest else (some c, rest)

/-- Resume the processQueue while loop: either hand the next queued turn
to the output device (and await its end), or, when the queue is empty,
clear the isProcessing flag. -/
def processQueueStep (s : PlayerState) : PlayerState :=
  match popPlay s.playbackQueue with
  | (none, _) => { s with playbackQueue := [], isProcessing := false }
  | (some c, rest) =>
    { s with playbackQueue := rest, playing := some c, trace := s.trace ++ [.hand c] }

/-- External events of the hook: a fragment arrives (queueAudio), the
buffered fragments are flushed (playQueuedAudio), the mute toggle, and
the output device finishing the current turn (the onended callback). -/
inductive PlayerEvent where
  | queueAudio (frag : Nat)
  | playQueuedAudio
  | toggleMute
  | audioEnded
deriving DecidableEq

/-- One step of the hook.  queueAudio appends to the chunk buffer
unconditionally.  playQueuedAudio returns on an empty buffer; when muted
it clears the buffer and returns; otherwise it moves the buffered chunks
as one turn onto the playback queue and invokes processQueue, which is a
no-op while already processing.  audioEnded resumes the awaiting
processQueue loop. -/
def stepPlayer (s : PlayerState) : PlayerEvent → PlayerState
  | .queueAudio f => { s with audioChunks := s.audioChunks ++ [f] }
  | .toggleMute => { s with isMuted := !s.isMuted }
  | .playQueuedAudio =>
    if s.audioChunks = [] then s
    else if s.isMuted then { s with audioChunks := [] }
    else
      let s' := { s with audioChunks := [],
                         playbackQueue := s.playbackQueue ++ [s.audioChunks],
                         enqueued := s.enqueued ++ [s.audioChunks] }
      if s.isProcessing then s' else processQueueStep { s' with isProcessing := true }
  | .audioEnded =>
    match s.playing with
    | none => s
    | some t => processQueueStep { s with playing := none, trace := s.trace ++ [.done t] }

/-- Initial hook state. -/
def initPlayer : PlayerState :=
  { audioChunks := [], playbackQueue := [], isMuted := false, isProcessing := false,
    playing := none, trace := [], enqueued := [] }

/-- Run the hook over a sequence of events. -/
def runPlayer (evs : List PlayerEvent) : PlayerState :=
  evs.foldl stepPlayer initPlayer

/-- The turns handed to the output device, in order. -/
def handsOf (tr : List PlayAct) : List (List Nat) :=
  tr.filterMap fun a => match a with | .hand t => some t | .done _ => none

/-- Device-trace automaton: `some none` means no turn is at the device,
`some (some t)` means turn t was handed and has not finished, `none`
means the trace violated strict hand/finish alternation. -/
def altFold : Option (Option (List Nat)) → PlayAct → Option (Option (List Nat))
  | none, _ => none
  | some none, .hand t => some (some t)
  | some none, .done _ => none
  | some (some t), .done u => if u = t then some none else none
  | some (some _), .hand _ => none

/-- State of the device-trace automaton after a trace. -/
def altState (tr : List PlayAct) : Option (Option (List Nat)) :=
  tr.foldl altFold (some none)

/-- Invariant of the player: the ghost trace strictly alternates hand
and matching done with the pending turn recorded in `playing`, the turns
handed to the device followed by the waiting queue are exactly the turns
ever enqueued (in order), queued turns are nonempty, and the
isProcessing flag is the loop being live. -/
def PlayerInv (s : PlayerState) : Prop :=
  altState s.trace = some s.playing
  ∧ s.enqueued = handsOf s.trace ++ s.playbackQueue
  ∧ (∀ q ∈ s.playbackQueue, q ≠ [])
  ∧ (s.isProcessing = false → s.playbackQueue = [] ∧ s.playing = none)
  ∧ (s.playing ≠ none → s.isProcessing = true)

/-! ### Session bridge (binary-protocol server, per browser connection)

Per-connection state of the WebSocket bridge: the upstream connections it
has created (in creation order, each with a status and the frames sent on
it), the index of the current `volcWs`, the isSessionActive flag, the
negotiated languages, and the messages sent to the browser.  The random
sessionId is modelled as a fixed opaque byte string. -/

/-- Status of one upstream WebSocket. -/
inductive ConnStatus where
  | connecting
  | opened
  | closed
deriving DecidableEq

/-- One upstream connection: its status and the frames sent on it. -/
structure UpstreamConn where
  status : ConnStatus
  sent : List (List Nat)
deriving DecidableEq

/-- JSON messages the bridge sends to the browser. -/
inductive BrowserMsg where
  | statusReady
  | statusDisconnected
  | errorMsg (message : List Nat)
  | turnComplete
  | asr (text : List Nat) (isFinal : Bool) (sequence : Int)
  | translation (text : List Nat) (language : List Nat) (isFinal : Bool) (sequence : Int)
  | audioOut (payload : List Nat)
deriving DecidableEq

/-- Per-browser-connection bridge state. -/
structure BridgeState where
  conns : List UpstreamConn
  currentConn : Option Nat
  isSessionActive : Bool
  sourceLanguage : List Nat
  targetLanguage : List Nat
  browserSent : List BrowserMsg
deriving DecidableEq

/-- Events the bridge reacts to; upstream events carry the index of the
connection whose handler fires (handlers of a superseded connection stay
attached and mutate the same shared state). -/
inductive BridgeEvent where
  | browserStart (src tgt : Option (List Nat))
  | browserAudio (payload : List Nat)
  | browserStop
  | browserClose
  | volcOpen (i : Nat)
  | volcMessage (i : Nat) (resp : TranslateResponse)
  | volcError (i : Nat) (message : List Nat)
  | volcClose (i : Nat)
deriving DecidableEq

/-- Update the i-th element of a list in place. -/
def listUpdate : List UpstreamConn → Nat → (UpstreamConn → UpstreamConn) → List UpstreamConn
  | [], _, _ => []
  | c :: rest, 0, f => f c :: rest
  | c :: rest, i + 1, f => c :: listUpdate rest i f

/-- UTF-8 bytes of "zh", the default source language. -/
def zhBytes : List Nat := [122, 104]

/-- UTF-8 bytes of "en", the default target language. -/
def enBytes : List Nat := [101, 110]

/-- The fixed sessionId (crypto.randomUUID modelled as an opaque token). -/
def sessionIdBytes : List Nat := [115, 105, 100, 45, 49]

/-- UTF-8 bytes of "web_translator". -/
def webTranslatorBytes : List Nat :=
  [119, 101, 98, 95, 116, 114, 97, 110, 115, 108, 97, 116, 111, 114]

/-- UTF-8 bytes of "web". -/
def webBytes : List Nat := [119, 101, 98]

/-- UTF-8 bytes of "1.0.0". -/
def sdkVersionBytes : List Nat := [49, 46, 48, 46, 48]

/-- UTF-8 bytes of "wav". -/
def wavBytes : List Nat := [119, 97, 118]

/-- UTF-8 bytes of "ogg_opus". -/
def oggOpusBytes : List Nat := [111, 103, 103, 95, 111, 112, 117, 115]

/-- UTF-8 bytes of "s2s". -/
def s2sBytes : List Nat := [115, 50, 115]

/-- UTF-8 bytes of "Session failed", the fallback error message. -/
def sessionFailedBytes : List Nat :=
  [83, 101, 115, 115, 105, 111, 110, 32, 102, 97, 105, 108, 101, 100]

/-- UTF-8 bytes of "Connection error: ". -/
def connectionErrorBytes : List Nat :=
  [67, 111, 110, 110, 101, 99, 116, 105, 111, 110, 32, 101, 114, 114, 111, 114, 58, 32]

/-- The StartSession frame (event 100) the open handler sends: sessionId,
user info, pcm-in and opus-out audio configuration, and the language
pair. -/
def startSessionFrame (src tgt : List Nat) : List Nat :=
  buildTranslateRequest
    { sessionId := sessionIdBytes, event := 100,
      user := some ⟨webTranslatorBytes, webTranslatorBytes, webBytes, sdkVersionBytes⟩,
      sourceAudio := some ⟨wavBytes, 16000, 16, 1, []⟩,
      targetAudio := some ⟨oggOpusBytes, 24000⟩,
      request := some ⟨s2sBytes, src, tgt⟩ }

/-- The TaskRequest frame (event 200) carrying one audio block. -/
def audioFrame (payload : List Nat) : List Nat :=
  buildTranslateRequest
    { sessionId := sessionIdBytes, event := 200,
      user := none,
      sourceAudio := some ⟨[], 0, 0, 0, payload⟩,
      targetAudio := none, request := none }

/-- The FinishSession frame (event 102). -/
def finishSessionFrame : List Nat :=
  buildTranslateRequest
    { sessionId := sessionIdBytes, event := 102,
      user := none, sourceAudio := none, targetAudio := none, request := none }

/-- The switch of the upstream message handler over the decoded response
event: 150 SessionStarted activates the session and reports ready; 153
SessionFailed reports the upstream message; 152 SessionFinished
deactivates and reports turnComplete; 650/651/652 forward source
subtitles (final exactly on 652); 653/654/655 forward translation
subtitles (final exactly on 655); 350/351/352 forward synthesized audio;
everything else (UsageResponse, None, unknown) does nothing. -/
def handleVolcResponse (s : BridgeState) (r : TranslateResponse) : BridgeState :=
  if r.event = 150 then
    { s with isSessionActive := true, browserSent := s.browserSent ++ [.statusReady] }
  else if r.event = 153 then
    { s with browserSent := s.browserSent
        ++ [.errorMsg (if r.responseMeta.Message = [] then sessionFailedBytes
                       else r.responseMeta.Message)] }
  else if r.event = 152 then
    { s with isSessionActive := false, browserSent := s.browserSent ++ [.turnComplete] }
  else if r.event = 652 then
    (if r.text ≠ [] then
      { s with browserSent := s.browserSent ++ [.asr r.text true r.responseMeta.Sequence] }
     else s)
  else if r.event = 650 ∨ r.event = 651 then
    (if r.text ≠ [] then
      { s with browserSent := s.browserSent ++ [.asr r.text false r.responseMeta.Sequence] }
     else s)
  else if r.event = 655 then
    (if r.text ≠ [] then
      { s with browserSent := s.browserSent
          ++ [.translation r.text s.targetLanguage true r.responseMeta.Sequence] }
     else s)
  else if r.event = 653 ∨ r.event = 654 then
    (if r.text ≠ [] then
      { s with browserSent := s.browserSent
          ++ [.translation r.text s.targetLanguage false r.responseMeta.Sequence] }
     else s)
  else if r.event = 350 ∨ r.event = 352 ∨ r.event = 351 then
    (if r.data ≠ [] then
      { s with browserSent := s.browserSent ++ [.audioOut r.data] }
     else s)
  else s

/-- One step of the bridge.

* browserStart: record languages (defaults zh/en), create a fresh
  upstream connection and make it current - without closing the previous
  one, which is exactly what the single-upstream claim is about.
* volcOpen i: the open handler of connection i marks it open and sends
  the StartSession frame through the current volcWs reference.  It does
  not touch isSessionActive and does not message the browser.
* volcMessage i: dispatch on the decoded event (handler of an open
  connection).
* volcError i: report a connection error to the browser.
* volcClose i: the upstream closed; mark it, clear isSessionActive and
  report disconnected.
* browserAudio/browserStop: only when the current connection is open and
  the session is active, send the TaskRequest/FinishSession frame;
  otherwise do nothing at all.
* browserClose: when the current connection is open, send a best-effort
  FinishSession if active, then close that connection. -/
def stepBridge (s : BridgeState) : BridgeEvent → BridgeState
  | .browserStart src tgt =>
    { s with sourceLanguage := src.getD zhBytes, targetLanguage := tgt.getD enBytes,
             conns := s.conns ++ [⟨.connecting, []⟩],
             currentConn := some s.conns.length }
  | .volcOpen i =>
    match s.conns[i]? with
    | some c =>
      if c.status = .connecting then
        let s1 := { s with conns := listUpdate s.conns i fun c => { c with status := .opened } }
        match s1.currentConn with
        | some j =>
          { s1 with conns := listUpdate s1.conns j fun c =>
              { c with sent := c.sent ++ [startSessionFrame s.sourceLanguage s.targetLanguage] } }
        | none => s1
      else s
    | none => s
  | .volcMessage i resp =>
    match s.conns[i]? with
    | some c => if c.status = .opened then handleVolcResponse s resp else s
    | none => s
  | .volcError i message =>
    match s.conns[i]? with
    | some _ =>
      { s with browserSent := s.browserSent ++ [.errorMsg (connectionErrorBytes ++ message)] }
    | none => s
  | .volcClose i =>
    match s.conns[i]? with
    | some c =>
      if c.status = .closed then s
      else
        { s with conns := listUpdate s.conns i fun c => { c with status := .closed },
                 isSessionActive := false,
                 browserSent := s.browserSent ++ [.statusDisconnected] }
    | none => s
  | .browserAudio payload =>
    match s.currentConn with
    | some j =>
      match s.conns[j]? with
      | some c =>
        if c.status = .opened ∧ s.isSessionActive then
          { s with conns := listUpdate s.conns j fun c =>
              { c with sent := c.sent ++ [audioFrame payload] } }
        else s
      | none => s
    | none => s
  | .browserStop =>
    match s.currentConn with
    | some j =>
      match s.conns[j]? with
      | some c =>
        if c.status = .opened ∧ s.isSessionActive then
          { s with conns := listUpdate s.conns j fun c =>
              { c with sent := c.sent ++ [finishSessionFrame] } }
        else s
      | none => s
    | none => s
  | .browserClose =>
    match s.currentConn with
    | some j =>
      match s.conns[j]? with
      | some c =>
        if c.status = .opened then
          let s1 :=
            if s.isSessionActive then
              { s with conns := listUpdate s.conns j fun c =>
                  { c with sent := c.sent ++ [finishSessionFrame] } }
            else s
          { s1 with conns := listUpdate s1.conns j fun c => { c with status := .closed } }
        else s
      | none => s
    | none => s

/-- Initial bridge state for a fresh browser connection. -/
def initBridge : BridgeState :=
  { conns := [], currentConn := none, isSessionActive := false,
    sourceLanguage := zhBytes, targetLanguage := enBytes, browserSent := [] }

/-- Run the bridge over a sequence of events. -/
def runBridge (evs : List BridgeEvent) : BridgeState :=
  evs.foldl stepBridge initBridge

/-- Number of upstream connections currently open. -/
def openConnCount (s : BridgeState) : Nat :=
  (s.conns.filter fun c => c.status = .opened).length

/-- Number of browser start requests in an event sequence. -/
def countStartEvents (evs : List BridgeEvent) : Nat :=
  (evs.filter fun e => match e with | .browserStart _ _ => true | _ => false).length

/-- A concrete fully-populated options value (sessionId "a", event
StartSession, user info, audio blocks and language pair), used to
evaluate the codec on one input. -/
def c1ExampleOptions : TranslateRequestOptions :=
  { sessionId := [97], event := 100,
    user := some ⟨[119, 101], [100], [112], [49]⟩,
    sourceAudio := some ⟨[119, 97, 118], 16000, 16, 1, []⟩,
    targetAudio := some ⟨[111, 103, 103], 24000⟩,
    request := some ⟨[115, 50, 115], [122, 104], [101, 110]⟩ }

/-- A six-byte buffer whose single field has tag 0x0A (field 1, wire
type 2) and whose length varint F8 FF FF FF 0F decodes, under the
reader's 32-bit accumulation, to -8: slicing clamps to an empty payload
and the offset moves backwards to -2, after which two zero-value varints
(out-of-range reads yield byte 0) bring the offset back to 0. -/
def divergingBuffer : List Nat := [10, 248, 255, 255, 255, 15]

/-! ## Lemmas: JS 32-bit arithmetic -/

theorem jsUint32_natCast (n : Nat) : jsUint32 (n : Int) = n % 4294967296 := by
  simp only [jsUint32]
  omega

theorem jsUint32_lt (n : Int) : jsUint32 n < 4294967296 := by
  simp only [jsUint32]
  omega

theorem jsToInt32_natCast_of_lt {n : Nat} (h : n < 2147483648) : jsToInt32 (n : Int) = (n : Int) := by
  simp only [jsToInt32, jsUint32_natCast]
  rw [if_pos (by omega)]
  omega

theorem jsUint32_jsToInt32 (n : Int) : jsUint32 (jsToInt32 n) = jsUint32 n := by
  simp only [jsToInt32, jsUint32]
  split <;> omega

theorem jsToInt32_natCast_mod (n : Nat) :
    jsToInt32 ((n % 4294967296 : Nat) : Int) = jsToInt32 (n : Int) := by
  simp only [jsToInt32, jsUint32]
  have h : ((n % 4294967296 : Nat) : Int) % 4294967296 = (n : Int) % 4294967296 := by omega
  rw [h]

theorem jsOr32_natCast {a b : Nat} (ha : a < 4294967296) (hb : b < 4294967296) :
    jsOr32 (a : Int) (jsToInt32 (b : Int)) = jsToInt32 ((a ||| b : Nat) : Int) := by
  simp only [jsOr32, jsUint32_jsToInt32, jsUint32_natCast,
    Nat.mod_eq_of_lt ha, Nat.mod_eq_of_lt hb]

theorem jsShl32_natCast {x : Nat} (hx : x < 4294967296) {k : Nat} (hk : k < 32) :
    jsShl32 (x : Int) k = jsToInt32 ((x * 2 ^ k : Nat) : Int) := by
  simp only [jsShl32, jsUint32_natCast, Nat.mod_eq_of_lt hx, Nat.mod_eq_of_lt hk,
    Nat.shiftLeft_eq]

/-! ## Lemmas: Nat bit arithmetic -/

theorem nat_lor_two_pow_mul {a k : Nat} (h : a < 2 ^ k) (b : Nat) :
    a ||| 2 ^ k * b = a + 2 ^ k * b := by
  apply Nat.eq_of_testBit_eq
  intro i
  rw [Nat.testBit_or, Nat.add_comm a (2 ^ k * b), Nat.testBit_mul_pow_two_add b h i]
  by_cases hik : i < k
  · rw [if_pos hik, Nat.testBit_mul_pow_two]
    simp [Nat.not_le.mpr hik]
  · rw [if_neg hik, Nat.testBit_mul_pow_two]
    have ha : a.testBit i = false :=
      Nat.testBit_lt_two_pow
        (lt_of_lt_of_le h (Nat.pow_le_pow_right (by norm_num) (Nat.not_lt.mp hik)))
    simp [ha, Nat.not_lt.mp hik]

theorem nat_and_127 (m : Nat) : m &&& 127 = m % 128 := by
  have h : m &&& 2 ^ 7 - 1 = m % 2 ^ 7 := Nat.and_pow_two_sub_one_eq_mod m 7
  norm_num at h
  exact h

theorem nat_and_128_of_lt {m : Nat} (h : m < 128) : m &&& 128 = 0 := by
  have h2 : m &&& 2 ^ 7 = (m.testBit 7).toNat * 2 ^ 7 := Nat.and_two_pow m 7
  have ht : m.testBit 7 = false :=
    Nat.testBit_lt_two_pow (by simp only [show (2:Nat) ^ 7 = 128 from by norm_num]; exact h)
  rw [ht] at h2
  simpa using h2

theorem nat_lor_128_of_lt {g : Nat} (h : g < 128) : g ||| 128 = g + 128 := by
  have h' : g < 2 ^ 7 := by simp only [show (2:Nat) ^ 7 = 128 from by norm_num]; exact h
  have := nat_lor_two_pow_mul h' 1
  simpa using this

theorem nat_add_128_and_128 {g : Nat} (h : g < 128) : (g + 128) &&& 128 = 128 := by
  have h2 : (g + 128) &&& 2 ^ 7 = ((g + 128).testBit 7).toNat * 2 ^ 7 := Nat.and_two_pow _ 7
  have hrw : g + 128 = 2 ^ 7 + g := by norm_num; omega
  have ht : (g + 128).testBit 7 = true := by
    rw [hrw, Nat.testBit_two_pow_add_eq,
      Nat.testBit_lt_two_pow (by simp only [show (2:Nat) ^ 7 = 128 from by norm_num]; exact h)]
    rfl
  rw [ht] at h2
  simpa using h2

/-! ## Lemmas: the writeVarint loop equation -/

theorem writeVarintAux_next_lt {v : Nat} (f : Nat) (h : v < 2 ^ (7 * f + 7)) :
    (v % 4294967296) / 128 < 2 ^ (7 * f) := by
  by_cases hv : v < 4294967296
  · rw [Nat.mod_eq_of_lt hv]
    rw [Nat.div_lt_iff_lt_mul (by norm_num : 0 < 128)]
    calc v < 2 ^ (7 * f + 7) := h
    _ = 2 ^ (7 * f) * 128 := by rw [pow_add]; norm_num
  · have hf : 4 ≤ f := by
      have h32 : (2 : Nat) ^ 32 ≤ v := by norm_num; omega
      have hlt : (2 : Nat) ^ 32 < 2 ^ (7 * f + 7) := lt_of_le_of_lt h32 h
      have := (Nat.pow_lt_pow_iff_right (by norm_num : 1 < 2)).mp hlt
      omega
    have hm : v % 4294967296 < 4294967296 := Nat.mod_lt _ (by norm_num)
    have hq : (v % 4294967296) / 128 < 33554432 := by omega
    calc (v % 4294967296) / 128 < 2 ^ 25 := by norm_num; omega
    _ ≤ 2 ^ (7 * f) := Nat.pow_le_pow_right (by norm_num) (by omega)

theorem writeVarintAux_congr : ∀ (f₁ v f₂ : Nat), v < 2 ^ (7 * f₁ + 7) → v < 2 ^ (7 * f₂ + 7) →
    writeVarintAux (f₁ + 1) v = writeVarintAux (f₂ + 1) v := by
  intro f₁
  induction f₁ with
  | zero =>
    intro v f₂ h1 _
    have hv : v < 128 := by norm_num at h1; omega
    cases f₂ <;> simp [writeVarintAux, Nat.not_lt.mpr (by omega : v ≤ 127)]
  | succ f ih =>
    intro v f₂ h1 h2
    by_cases h127 : 127 < v
    · have hf₂ : f₂ ≠ 0 := by
        rintro rfl
        norm_num at h2
        omega
      obtain ⟨k, rfl⟩ := Nat.exists_eq_succ_of_ne_zero hf₂
      simp only [writeVarintAux, if_pos h127]
      congr 1
      exact ih _ k (writeVarintAux_next_lt _ h1) (writeVarintAux_next_lt _ h2)
    · cases f₂ <;> simp [writeVarintAux, h127]

theorem writeVarint_eq (v : Nat) :
    writeVarint v =
      if 127 < v then ((v % 128) ||| 128) :: writeVarint ((v % 4294967296) / 128)
      else [v] := by
  by_cases h : 127 < v
  · rw [if_pos h]
    show writeVarintAux 5 v = _
    simp only [writeVarintAux, if_pos h]
    congr 1
    have hlt : (v % 4294967296) / 128 < 2 ^ 25 := by
      have : v % 4294967296 < 4294967296 := Nat.mod_lt _ (by norm_num)
      norm_num
      omega
    exact writeVarintAux_congr 3 _ 4 (lt_of_lt_of_le hlt (Nat.pow_le_pow_right (by norm_num) (by norm_num)))
      (lt_of_lt_of_le hlt (Nat.pow_le_pow_right (by norm_num) (by norm_num)))
  · rw [if_neg h]
    show writeVarintAux 5 v = _
    simp [writeVarintAux, h]

theorem writeVarint_ne_nil (v : Nat) : writeVarint v ≠ [] := by
  rw [writeVarint_eq]
  split <;> simp

theorem writeVarint_length_pos (v : Nat) : 0 < (writeVarint v).length := by
  cases hw : writeVarint v with
  | nil => exact absurd hw (writeVarint_ne_nil v)
  | cons a l => simp

theorem writeVarintAux_length_le : ∀ (f v : Nat), (writeVarintAux f v).length ≤ f + 1 := by
  intro f
  induction f with
  | zero => intro v; simp [writeVarintAux]
  | succ f ih =>
    intro v
    simp only [writeVarintAux]
    split
    · simpa using Nat.succ_le_succ (ih _)
    · simp

theorem writeVarint_length_le (v : Nat) : (writeVarint v).length ≤ 6 :=
  writeVarintAux_length_le 5 v

/-! ## Lemmas: the readVarint loop equation -/

theorem jsByte_append (pre : List Nat) (x : Nat) (t : List Nat) :
    jsByte (pre ++ x :: t) (pre.length : Int) = x := by
  rw [jsByte, if_neg (by omega : ¬ ((pre.length : Int) < 0))]
  have h : ((pre.length : Int)).toNat = pre.length := by omega
  rw [h, List.getElem?_append_right (Nat.le_refl _)]
  simp

theorem readVarintLoop_eq (buf : List Nat) (offset result : Int) (shift : Nat) :
    readVarintLoop buf offset result shift =
      if offset < (buf.length : Int) then
        let byte := jsByte buf offset
        let result' := jsOr32 result (jsShl32 ((byte &&& 127 : Nat) : Int) shift)
        if byte &&& 128 = 0 then (result', offset + 1)
        else readVarintLoop buf (offset + 1) result' (shift + 7)
      else (result, offset) := by
  by_cases h : offset < (buf.length : Int)
  · have hfuel : ((buf.length : Int) - offset).toNat + 1
        = ((((buf.length : Int) - (offset + 1)).toNat + 1) + 1) := by omega
    rw [readVarintLoop, hfuel]
    simp only [readVarintAux, if_pos h]
    rfl
  · rw [readVarintLoop]
    simp only [readVarintAux, if_neg h]

/-! ## The varint round trip

Reading back an emitted varint: with the 32-bit signed accumulation of
the reader, decoding the bytes `writeVarint m` emitted at offset
`pre.length` with accumulator `acc` holding bits below `shift` yields the
signed 32-bit reinterpretation of `acc + m * 2 ^ shift` and stops exactly
after the emitted bytes. -/

theorem readVarint_writeVarint_general (m : Nat) :
    ∀ (shift acc : Nat) (pre rest : List Nat), shift ≤ 31 → m < 2 ^ (32 - shift) →
    acc < 2 ^ shift →
    readVarintLoop (pre ++ writeVarint m ++ rest) (pre.length : Int) (acc : Int) shift
      = (jsToInt32 ((acc + m * 2 ^ shift : Nat) : Int),
         ((pre.length + (writeVarint m).length : Nat) : Int)) := by
  induction m using Nat.strong_induction_on with
  | _ m IH =>
  intro shift acc pre rest hs hm hacc
  have hs32 : shift < 32 := by omega
  have hpow32 : (2 : Nat) ^ (32 - shift) * 2 ^ shift = 4294967296 := by
    rw [← pow_add, show 32 - shift + shift = 32 from by omega]
    norm_num
  have hacc32 : acc < 4294967296 := by
    have : (2 : Nat) ^ shift ≤ 2 ^ 31 := Nat.pow_le_pow_right (by norm_num) hs
    have h31 : (2 : Nat) ^ 31 = 2147483648 := by norm_num
    omega
  have hms : m * 2 ^ shift < 4294967296 := by
    calc m * 2 ^ shift < 2 ^ (32 - shift) * 2 ^ shift :=
      Nat.mul_lt_mul_of_lt_of_le hm (Nat.le_refl _) (Nat.pos_pow_of_pos _ (by norm_num))
    _ = 4294967296 := hpow32
  by_cases h127 : 127 < m
  · -- continuation byte followed by the encoding of m / 128
    have hm32 : m < 4294967296 := by
      have : (2 : Nat) ^ (32 - shift) ≤ 2 ^ 32 := Nat.pow_le_pow_right (by norm_num) (by omega)
      have h32 : (2 : Nat) ^ 32 = 4294967296 := by norm_num
      omega
    have hmod : m % 4294967296 = m := Nat.mod_eq_of_lt hm32
    have hwv : writeVarint m = ((m % 128) ||| 128) :: writeVarint (m / 128) := by
      rw [writeVarint_eq, if_pos h127, hmod]
    have hshift24 : shift ≤ 24 := by
      have h7 : (2 : Nat) ^ 7 < 2 ^ (32 - shift) := by
        have : (2 : Nat) ^ 7 ≤ m := by norm_num; omega
        omega
      have := (Nat.pow_lt_pow_iff_right (by norm_num : 1 < 2)).mp h7
      omega
    have hb : (m % 128) ||| 128 = m % 128 + 128 := nat_lor_128_of_lt (Nat.mod_lt _ (by norm_num))
    have hm' : m / 128 < 2 ^ (32 - (shift + 7)) := by
      rw [Nat.div_lt_iff_lt_mul (by norm_num : 0 < 128)]
      calc m < 2 ^ (32 - shift) := hm
      _ = 2 ^ (32 - (shift + 7)) * 128 := by
        rw [show (128 : Nat) = 2 ^ 7 from by norm_num, ← pow_add]
        congr 1
        omega
    have hm'lt : m / 128 < m := Nat.div_lt_self (by omega) (by norm_num)
    rw [hwv, show pre ++ (((m % 128) ||| 128) :: writeVarint (m / 128)) ++ rest
        = pre ++ ((m % 128) ||| 128) :: (writeVarint (m / 128) ++ rest) from by simp]
    rw [readVarintLoop_eq, if_pos (by simp [List.length_append]; omega)]
    simp only [jsByte_append]
    rw [if_neg (by rw [hb, nat_add_128_and_128 (Nat.mod_lt _ (by norm_num))]; norm_num)]
    have hband : ((m % 128) ||| 128) &&& 127 = m % 128 := by
      rw [hb, nat_and_127]
      omega
    have hcontrib : (m % 128) * 2 ^ shift < 4294967296 := by
      have : m % 128 ≤ m := Nat.mod_le _ _
      have := Nat.mul_le_mul_right (2 ^ shift) this
      omega
    have hsumlt : acc + (m % 128) * 2 ^ shift < 2 ^ (shift + 7) := by
      have hmm : m % 128 < 128 := Nat.mod_lt _ (by norm_num)
      have h1 : (m % 128) * 2 ^ shift ≤ 127 * 2 ^ shift :=
        Nat.mul_le_mul_right _ (by omega)
      have h2 : (2 : Nat) ^ (shift + 7) = 2 ^ shift * 128 := by
        rw [pow_add]; norm_num
      have h3 : acc + 127 * 2 ^ shift < 2 ^ shift * 128 := by
        have := hacc
        nlinarith [Nat.pos_pow_of_pos shift (show 0 < 2 from by norm_num)]
      omega
    have hsum31 : acc + (m % 128) * 2 ^ shift < 2147483648 := by
      have : (2 : Nat) ^ (shift + 7) ≤ 2 ^ 31 := Nat.pow_le_pow_right (by norm_num) (by omega)
      have h31 : (2 : Nat) ^ 31 = 2147483648 := by norm_num
      omega
    have hres : jsOr32 (acc : Int) (jsShl32 (((((m % 128) ||| 128) &&& 127 : Nat)) : Int) shift)
        = ((acc + (m % 128) * 2 ^ shift : Nat) : Int) := by
      rw [hband, jsShl32_natCast (by omega) hs32, jsOr32_natCast hacc32 hcontrib,
        Nat.mul_comm (m % 128) (2 ^ shift), nat_lor_two_pow_mul hacc,
        Nat.mul_comm (2 ^ shift) (m % 128), jsToInt32_natCast_of_lt hsum31]
    rw [hres]
    rw [show pre ++ ((m % 128) ||| 128) :: (writeVarint (m / 128) ++ rest)
        = (pre ++ [(m % 128) ||| 128]) ++ writeVarint (m / 128) ++ rest from by simp]
    rw [show ((pre.length : Int) + 1) = (((pre ++ [(m % 128) ||| 128]).length : Nat) : Int)
        from by simp]
    rw [IH (m / 128) hm'lt (shift + 7) (acc + (m % 128) * 2 ^ shift)
        (pre ++ [(m % 128) ||| 128]) rest (by omega) hm' hsumlt]
    have hval : acc + (m % 128) * 2 ^ shift + m / 128 * 2 ^ (shift + 7)
        = acc + m * 2 ^ shift := by
      have hmd : m % 128 + 128 * (m / 128) = m := Nat.mod_add_div m 128
      calc acc + (m % 128) * 2 ^ shift + m / 128 * 2 ^ (shift + 7)
          = acc + (m % 128 + 128 * (m / 128)) * 2 ^ shift := by rw [pow_add]; ring
      _ = acc + m * 2 ^ shift := by rw [hmd]
    rw [hval]
    have hlen : (pre ++ [(m % 128) ||| 128]).length + (writeVarint (m / 128)).length
        = pre.length + (((m % 128) ||| 128) :: writeVarint (m / 128)).length := by
      simp only [List.length_append, List.length_cons, List.length_nil,
        List.length_singleton]
      omega
    rw [hlen]
  · -- final byte: the value itself, continuation bit clear
    have hm128 : m < 128 := by omega
    have hwv : writeVarint m = [m] := by rw [writeVarint_eq, if_neg h127]
    rw [hwv, show pre ++ [m] ++ rest = pre ++ m :: rest from by simp]
    rw [readVarintLoop_eq, if_pos (by simp [List.length_append])]
    simp only [jsByte_append]
    rw [if_pos (nat_and_128_of_lt hm128)]
    have hband : m &&& 127 = m := by rw [nat_and_127]; omega
    rw [hband, jsShl32_natCast (by omega) hs32, jsOr32_natCast hacc32 hms,
      Nat.mul_comm m (2 ^ shift), nat_lor_two_pow_mul hacc,
      Nat.mul_comm (2 ^ shift) m]
    simp

theorem readVarint_writeVarint_lt {v : Nat} (hv : v < 2147483648) (pre rest : List Nat) :
    readVarintLoop (pre ++ writeVarint v ++ rest) (pre.length : Int) 0 0
      = ((v : Int), ((pre.length + (writeVarint v).length : Nat) : Int)) := by
  have h := readVarint_writeVarint_general v 0 0 pre rest (by norm_num)
    (by norm_num; omega) (by norm_num)
  simpa [jsToInt32_natCast_of_lt hv] using h

theorem jsByte_cons (x : Nat) (t : List Nat) : jsByte (x :: t) 0 = x := by
  simpa using jsByte_append [] x t

theorem reader_readVarint_at {v : Nat} (hv : v < 2147483648) (pre rest : List Nat) :
    ProtobufReader.readVarint ⟨pre ++ writeVarint v ++ rest, (pre.length : Int)⟩
      = ((v : Int),
         ⟨pre ++ writeVarint v ++ rest, ((pre.length + (writeVarint v).length : Nat) : Int)⟩) := by
  unfold ProtobufReader.readVarint
  rw [readVarint_writeVarint_lt hv pre rest]

/-- Reading back any emitted varint gives the signed 32-bit
reinterpretation of the value: exact below 2^31, the value minus 2^32 in
[2^31, 2^32), and the reinterpreted 32-bit truncation beyond (the writer
truncates through the unsigned shift). -/
theorem readVarint_writeVarint_toInt32 (n : Nat) :
    (ProtobufReader.readVarint ⟨writeVarint n, 0⟩).1 = jsToInt32 (n : Int) := by
  by_cases h : 127 < n
  · simp only [ProtobufReader.readVarint]
    rw [writeVarint_eq, if_pos h]
    rw [readVarintLoop_eq, if_pos (by simp)]
    rw [show jsByte (((n % 128) ||| 128) :: writeVarint (n % 4294967296 / 128)) 0
        = (n % 128) ||| 128 from jsByte_cons _ _]
    rw [if_neg (by
      rw [nat_lor_128_of_lt (Nat.mod_lt _ (by norm_num)),
        nat_add_128_and_128 (Nat.mod_lt _ (by norm_num))]
      norm_num)]
    have hband : ((n % 128) ||| 128) &&& 127 = n % 128 := by
      rw [nat_lor_128_of_lt (Nat.mod_lt _ (by norm_num)), nat_and_127]
      omega
    have hres : jsOr32 (0 : Int) (jsShl32 ((((n % 128) ||| 128) &&& 127 : Nat) : Int) 0)
        = (((n % 128 : Nat)) : Int) := by
      rw [hband, jsShl32_natCast (by omega) (by norm_num),
        show (0 : Int) = ((0 : Nat) : Int) from rfl,
        jsOr32_natCast (by norm_num) (by omega), pow_zero, Nat.mul_one, Nat.zero_or,
        jsToInt32_natCast_of_lt (show n % 128 < 2147483648 by omega)]
    rw [hres]
    have hm' : n % 4294967296 / 128 < 2 ^ (32 - 7) := by
      have : n % 4294967296 < 4294967296 := Nat.mod_lt _ (by norm_num)
      norm_num
      omega
    have e3 : ((n % 128) ||| 128) :: writeVarint (n % 4294967296 / 128)
        = [((n % 128) ||| 128)] ++ writeVarint (n % 4294967296 / 128) ++ [] := by simp
    have e1 : ((0 : Int) + 1) = (([((n % 128) ||| 128)] : List Nat).length : Int) := by simp
    rw [show 0 + 7 = 7 from rfl, e3, e1,
      readVarint_writeVarint_general (n % 4294967296 / 128) 7 (n % 128)
        [((n % 128) ||| 128)] [] (by norm_num) hm' (by norm_num; omega)]
    show jsToInt32 ((n % 128 + n % 4294967296 / 128 * 2 ^ 7 : Nat) : Int) = jsToInt32 (n : Int)
    have harith : n % 128 + n % 4294967296 / 128 * 2 ^ 7 = n % 4294967296 := by
      norm_num
      omega
    rw [harith, jsToInt32_natCast_mod]
  · have hv : n < 2147483648 := by omega
    have hlt := readVarint_writeVarint_lt hv ([] : List Nat) ([] : List Nat)
    simp only [List.nil_append, List.append_nil, List.length_nil, Nat.cast_zero,
      Nat.zero_add] at hlt
    simp only [ProtobufReader.readVarint]
    rw [hlt, jsToInt32_natCast_of_lt hv]

/-! ## Parsing one emitted field -/

theorem hasMore_true {buf : List Nat} {off : Int} (h : off < (buf.length : Int)) :
    (ProtobufReader.hasMore ⟨buf, off⟩) = true := by
  simp [ProtobufReader.hasMore]
  exact h

theorem tag_value (f w : Nat) (hw : w < 8) : (f <<< 3) ||| w = w + 2 ^ 3 * f := by
  rw [Nat.shiftLeft_eq, Nat.lor_comm, Nat.mul_comm f (2 ^ 3),
    nat_lor_two_pow_mul (show w < 2 ^ 3 from by norm_num; omega) f]

theorem tag_lt (f w : Nat) (hf : f < 268435456) (hw : w < 8) :
    (f <<< 3) ||| w < 2147483648 := by
  rw [tag_value f w hw]
  norm_num
  omega

theorem tag_field (f w : Nat) (hf : f < 268435456) (hw : w < 8) :
    jsShrU32 (((f <<< 3) ||| w : Nat) : Int) 3 = f := by
  rw [tag_value f w hw]
  simp only [jsShrU32, jsUint32_natCast]
  rw [Nat.mod_eq_of_lt (by norm_num; omega), Nat.mod_eq_of_lt (by norm_num),
    Nat.shiftRight_eq_div_pow]
  norm_num
  omega

theorem tag_wire (f w : Nat) (hf : f < 268435456) (hw : w < 8) :
    jsUint32 (((f <<< 3) ||| w : Nat) : Int) &&& 7 = w := by
  rw [tag_value f w hw, jsUint32_natCast, Nat.mod_eq_of_lt (by norm_num; omega)]
  have h7 : w + 2 ^ 3 * f &&& 2 ^ 3 - 1 = (w + 2 ^ 3 * f) % 2 ^ 3 :=
    Nat.and_pow_two_sub_one_eq_mod _ 3
  norm_num at h7 ⊢
  omega

/-- One parse iteration consumes one emitted wire-type-0 field and applies
its varint action. -/
theorem parseLoop_varint_field (f v : Nat) (pre rest : List Nat) (acc : TranslateResponse)
    (fuel : Nat) (hf : f < 268435456) (hv : v < 2147483648) :
    parseLoop (fuel + 1) ⟨pre ++ (writeTag f 0 ++ writeVarint v) ++ rest, (pre.length : Int)⟩ acc
      = parseLoop fuel
          ⟨pre ++ (writeTag f 0 ++ writeVarint v) ++ rest,
           ((pre.length + (writeTag f 0 ++ writeVarint v).length : Nat) : Int)⟩
          (applyVarintField f v acc) := by
  have htag : writeTag f 0 = writeVarint ((f <<< 3) ||| 0) := rfl
  have hB : pre ++ (writeTag f 0 ++ writeVarint v) ++ rest
      = pre ++ writeVarint ((f <<< 3) ||| 0) ++ (writeVarint v ++ rest) := by
    rw [htag]
    simp [List.append_assoc]
  have h1 := reader_readVarint_at (tag_lt f 0 hf (by norm_num)) pre (writeVarint v ++ rest)
  have h2 := reader_readVarint_at hv (pre ++ writeVarint ((f <<< 3) ||| 0)) rest
  rw [List.append_assoc (pre ++ writeVarint ((f <<< 3) ||| 0)) (writeVarint v) rest,
    List.length_append pre (writeVarint ((f <<< 3) ||| 0))] at h2
  have hoff : (pre.length + (writeTag f 0 ++ writeVarint v).length : Nat)
      = pre.length + (writeVarint ((f <<< 3) ||| 0)).length + (writeVarint v).length := by
    rw [htag, List.length_append]
    omega
  have hmore : (↑pre.length : Int)
      < ((pre ++ writeVarint ((f <<< 3) ||| 0) ++ (writeVarint v ++ rest)).length : Int) := by
    have hp := writeVarint_length_pos ((f <<< 3) ||| 0)
    simp only [List.length_append]
    push_cast
    omega
  rw [hB, hoff]
  simp only [parseLoop, hasMore_true hmore, if_true, h1, h2,
    tag_field f 0 hf (by norm_num), tag_wire f 0 hf (by norm_num), applyVarintField]

theorem hasMore_false {buf : List Nat} {off : Int} (h : ¬ off < (buf.length : Int)) :
    (ProtobufReader.hasMore ⟨buf, off⟩) = false := by
  simp [ProtobufReader.hasMore]
  omega

theorem jsSlice_extract (pre payload rest : List Nat) :
    jsSlice (pre ++ payload ++ rest) (pre.length : Int)
      ((pre.length : Int) + (payload.length : Int)) = payload := by
  have hL : ((pre ++ payload ++ rest).length : Int)
      = (pre.length : Int) + payload.length + rest.length := by
    simp only [List.length_append]
    push_cast
    ring
  simp only [jsSlice]
  rw [if_neg (by omega : ¬ ((pre.length : Int) < 0)),
    if_neg (by omega : ¬ ((pre.length : Int) + (payload.length : Int) < 0)), hL]
  rw [min_eq_left (by omega), min_eq_left (by omega)]
  rw [show ((pre.length : Int)).toNat = pre.length from by omega]
  rw [show ((pre.length : Int) + (payload.length : Int) - (pre.length : Int)).toNat
      = payload.length from by omega]
  rw [show pre ++ payload ++ rest = pre ++ (payload ++ rest) from by simp]
  rw [List.drop_left, List.take_left]

theorem reader_readBytes_at (pre payload rest : List Nat) :
    ProtobufReader.readBytes ⟨pre ++ payload ++ rest, (pre.length : Int)⟩ (payload.length : Int)
      = (payload,
         ⟨pre ++ payload ++ rest, ((pre.length + payload.length : Nat) : Int)⟩) := by
  unfold ProtobufReader.readBytes
  rw [jsSlice_extract]
  rw [show ((pre.length : Int) + (payload.length : Int))
      = ((pre.length + payload.length : Nat) : Int) from by push_cast; ring]

theorem respMeta_eta (acc : TranslateResponse) :
    { acc with responseMeta := acc.responseMeta } = acc := rfl

/-- One parse iteration consumes one emitted length-delimited field other
than field 1 and applies its action (field 3 to data, field 4 to text,
others skipped). -/
theorem parseLoop_len_field (f : Nat) (payload pre rest : List Nat) (acc : TranslateResponse)
    (fuel : Nat) (hf : f < 268435456) (hf1 : f ≠ 1) (hlen : payload.length < 2147483648) :
    parseLoop (fuel + 1)
        ⟨pre ++ (writeTag f 2 ++ writeVarint payload.length ++ payload) ++ rest,
         (pre.length : Int)⟩ acc
      = parseLoop fuel
          ⟨pre ++ (writeTag f 2 ++ writeVarint payload.length ++ payload) ++ rest,
           ((pre.length + (writeTag f 2 ++ writeVarint payload.length ++ payload).length : Nat)
             : Int)⟩
          (applyLenField f payload acc) := by
  have htag : writeTag f 2 = writeVarint ((f <<< 3) ||| 2) := rfl
  have hB : pre ++ (writeTag f 2 ++ writeVarint payload.length ++ payload) ++ rest
      = pre ++ writeVarint ((f <<< 3) ||| 2)
          ++ (writeVarint payload.length ++ (payload ++ rest)) := by
    rw [htag]
    simp [List.append_assoc]
  have h1 := reader_readVarint_at (tag_lt f 2 hf (by norm_num)) pre
    (writeVarint payload.length ++ (payload ++ rest))
  have h2 := reader_readVarint_at hlen (pre ++ writeVarint ((f <<< 3) ||| 2)) (payload ++ rest)
  rw [List.append_assoc (pre ++ writeVarint ((f <<< 3) ||| 2)) (writeVarint payload.length)
      (payload ++ rest),
    List.length_append pre (writeVarint ((f <<< 3) ||| 2))] at h2
  have h3 := reader_readBytes_at
    (pre ++ writeVarint ((f <<< 3) ||| 2) ++ writeVarint payload.length) payload rest
  rw [List.append_assoc (pre ++ writeVarint ((f <<< 3) ||| 2) ++ writeVarint payload.length)
      payload rest,
    List.append_assoc (pre ++ writeVarint ((f <<< 3) ||| 2)) (writeVarint payload.length)
      (payload ++ rest),
    List.length_append (pre ++ writeVarint ((f <<< 3) ||| 2)) (writeVarint payload.length),
    List.length_append pre (writeVarint ((f <<< 3) ||| 2))] at h3
  have hoff : (pre.length + (writeTag f 2 ++ writeVarint payload.length ++ payload).length : Nat)
      = pre.length + (writeVarint ((f <<< 3) ||| 2)).length
          + (writeVarint payload.length).length + payload.length := by
    rw [htag]
    simp only [List.length_append]
    omega
  have hmore : (↑pre.length : Int)
      < ((pre ++ writeVarint ((f <<< 3) ||| 2)
          ++ (writeVarint payload.length ++ (payload ++ rest))).length : Int) := by
    have hp := writeVarint_length_pos ((f <<< 3) ||| 2)
    simp only [List.length_append]
    push_cast
    omega
  rw [hB, hoff]
  simp only [parseLoop, hasMore_true hmore, if_true, h1, h2, h3,
    tag_field f 2 hf (by norm_num), tag_wire f 2 hf (by norm_num),
    if_neg (show ¬ (2 : Nat) = 0 from by norm_num), if_pos (show (2 : Nat) = 2 from rfl),
    if_neg hf1, applyLenField]
  split
  · rfl
  · split <;> rfl

/-- The response_meta parser leaves the meta object unchanged on the
payload `writeString 6 sid`: the nested SessionID field number 6 is not
among the meta fields it reads (1, 2, 3, 4). -/
theorem parseMetaLoop_writeString6 (sid : List Nat) (m : ResponseMeta) (fuel : Nat)
    (hsid : sid ≠ []) (hlen : sid.length < 2147483648) :
    parseMetaLoop (fuel + 2) ⟨writeString 6 sid, 0⟩ m = some m := by
  have hws : writeString 6 sid = writeTag 6 2 ++ writeVarint sid.length ++ sid := by
    rw [writeString, if_neg hsid]
  have htag : writeTag 6 2 = writeVarint ((6 <<< 3) ||| 2) := rfl
  have hB : writeString 6 sid
      = writeVarint ((6 <<< 3) ||| 2) ++ (writeVarint sid.length ++ sid) := by
    rw [hws, htag]
    simp [List.append_assoc]
  have h1 := reader_readVarint_at (tag_lt 6 2 (by norm_num) (by norm_num)) ([] : List Nat)
    (writeVarint sid.length ++ sid)
  simp only [List.nil_append, List.length_nil, Nat.cast_zero, Nat.zero_add] at h1
  have h2 := reader_readVarint_at hlen (writeVarint ((6 <<< 3) ||| 2)) sid
  rw [List.append_assoc (writeVarint ((6 <<< 3) ||| 2)) (writeVarint sid.length) sid] at h2
  have h3 := reader_readBytes_at (writeVarint ((6 <<< 3) ||| 2) ++ writeVarint sid.length) sid
    ([] : List Nat)
  rw [List.append_nil, List.append_assoc (writeVarint ((6 <<< 3) ||| 2)) (writeVarint sid.length)
      sid,
    List.length_append (writeVarint ((6 <<< 3) ||| 2)) (writeVarint sid.length)] at h3
  have hmore1 : ((0 : Int))
      < ((writeVarint ((6 <<< 3) ||| 2) ++ (writeVarint sid.length ++ sid)).length : Int) := by
    have hp := writeVarint_length_pos ((6 <<< 3) ||| 2)
    have hn : 0 < (writeVarint ((6 <<< 3) ||| 2) ++ (writeVarint sid.length ++ sid)).length := by
      simp only [List.length_append]
      omega
    exact_mod_cast hn
  have hmore2 : ¬ ((((writeVarint ((6 <<< 3) ||| 2)).length
        + (writeVarint sid.length).length + sid.length : Nat) : Int)
      < ((writeVarint ((6 <<< 3) ||| 2) ++ (writeVarint sid.length ++ sid)).length : Int)) := by
    have hn : ¬ ((writeVarint ((6 <<< 3) ||| 2)).length
          + (writeVarint sid.length).length + sid.length
        < (writeVarint ((6 <<< 3) ||| 2) ++ (writeVarint sid.length ++ sid)).length) := by
      simp only [List.length_append]
      omega
    exact_mod_cast hn
  rw [hB]
  simp only [parseMetaLoop, hasMore_true hmore1, if_true, h1, h2, h3,
    ProtobufReader.readString,
    tag_field 6 2 (by norm_num) (by norm_num), tag_wire 6 2 (by norm_num) (by norm_num),
    if_neg (show ¬ (2 : Nat) = 0 from by norm_num), if_pos (show (2 : Nat) = 2 from rfl),
    if_neg (show ¬ (6 : Nat) = 1 from by norm_num), if_neg (show ¬ (6 : Nat) = 4 from by norm_num),
    hasMore_false hmore2, Bool.false_eq_true, if_false]

set_option maxHeartbeats 1000000 in
/-- One parse iteration consumes the emitted field 1 (request_meta
carrying `writeString 6 sid`) and leaves the result object unchanged. -/
theorem parseLoop_meta_field (sid pre rest : List Nat) (acc : TranslateResponse) (fuel : Nat)
    (hsid : sid ≠ []) (hlen : sid.length < 16777216) (hfuel : 2 ≤ fuel) :
    parseLoop (fuel + 1)
        ⟨pre ++ (writeTag 1 2 ++ writeVarint (writeString 6 sid).length ++ writeString 6 sid)
            ++ rest, (pre.length : Int)⟩ acc
      = parseLoop fuel
          ⟨pre ++ (writeTag 1 2 ++ writeVarint (writeString 6 sid).length ++ writeString 6 sid)
              ++ rest,
           ((pre.length
              + (writeTag 1 2 ++ writeVarint (writeString 6 sid).length
                  ++ writeString 6 sid).length : Nat) : Int)⟩
          acc := by
  obtain ⟨k, rfl⟩ : ∃ k, fuel = k + 2 := ⟨fuel - 2, by omega⟩
  have hwsl : (writeString 6 sid).length < 2147483648 := by
    rw [writeString, if_neg hsid]
    have h1 := writeVarint_length_le ((6 <<< 3) ||| 2)
    have h2 := writeVarint_length_le sid.length
    simp only [writeTag, List.length_append]
    omega
  have htag : writeTag 1 2 = writeVarint ((1 <<< 3) ||| 2) := rfl
  have hB : pre ++ (writeTag 1 2 ++ writeVarint (writeString 6 sid).length ++ writeString 6 sid)
        ++ rest
      = pre ++ writeVarint ((1 <<< 3) ||| 2)
          ++ (writeVarint (writeString 6 sid).length ++ (writeString 6 sid ++ rest)) := by
    rw [htag]
    simp [List.append_assoc]
  have h1 := reader_readVarint_at (tag_lt 1 2 (by norm_num) (by norm_num)) pre
    (writeVarint (writeString 6 sid).length ++ (writeString 6 sid ++ rest))
  have h2 := reader_readVarint_at hwsl (pre ++ writeVarint ((1 <<< 3) ||| 2))
    (writeString 6 sid ++ rest)
  rw [List.append_assoc (pre ++ writeVarint ((1 <<< 3) ||| 2))
      (writeVarint (writeString 6 sid).length) (writeString 6 sid ++ rest),
    List.length_append pre (writeVarint ((1 <<< 3) ||| 2))] at h2
  have h3 := reader_readBytes_at
    (pre ++ writeVarint ((1 <<< 3) ||| 2) ++ writeVarint (writeString 6 sid).length)
    (writeString 6 sid) rest
  rw [List.append_assoc
      (pre ++ writeVarint ((1 <<< 3) ||| 2) ++ writeVarint (writeString 6 sid).length)
      (writeString 6 sid) rest,
    List.append_assoc (pre ++ writeVarint ((1 <<< 3) ||| 2))
      (writeVarint (writeString 6 sid).length) (writeString 6 sid ++ rest),
    List.length_append (pre ++ writeVarint ((1 <<< 3) ||| 2))
      (writeVarint (writeString 6 sid).length),
    List.length_append pre (writeVarint ((1 <<< 3) ||| 2))] at h3
  have hoff : (pre.length
        + (writeTag 1 2 ++ writeVarint (writeString 6 sid).length
            ++ writeString 6 sid).length : Nat)
      = pre.length + (writeVarint ((1 <<< 3) ||| 2)).length
          + (writeVarint (writeString 6 sid).length).length + (writeString 6 sid).length := by
    rw [htag]
    simp only [List.length_append]
    omega
  have hmore : (↑pre.length : Int)
      < ((pre ++ writeVarint ((1 <<< 3) ||| 2)
          ++ (writeVarint (writeString 6 sid).length ++ (writeString 6 sid ++ rest))).length
          : Int) := by
    have hp := writeVarint_length_pos ((1 <<< 3) ||| 2)
    have hn : pre.length < (pre ++ writeVarint ((1 <<< 3) ||| 2)
        ++ (writeVarint (writeString 6 sid).length ++ (writeString 6 sid ++ rest))).length := by
      simp only [List.length_append]
      omega
    exact_mod_cast hn
  have h4 := parseMetaLoop_writeString6 sid acc.responseMeta k hsid (by omega)
  rw [hB, hoff]
  simp only [parseLoop, hasMore_true hmore, if_true, h1, h2, h3,
    tag_field 1 2 (by norm_num) (by norm_num), tag_wire 1 2 (by norm_num) (by norm_num),
    if_neg (show ¬ (2 : Nat) = 0 from by norm_num), if_pos (show (2 : Nat) = 2 from rfl),
    if_pos (show (1 : Nat) = 1 from rfl), h4, respMeta_eta]

theorem writeString_length_pos {f : Nat} {sid : List Nat} (hsid : sid ≠ []) :
    0 < (writeString f sid).length := by
  rw [writeString, if_neg hsid]
  have := writeVarint_length_pos ((f <<< 3) ||| 2)
  simp only [writeTag, List.length_append]
  omega

theorem EField.bytes_pos : ∀ fld : EField, 0 < fld.bytes.length := by
  intro fld
  cases fld with
  | varintF f v =>
    have := writeVarint_length_pos ((f <<< 3) ||| 0)
    simp only [EField.bytes, writeTag, List.length_append]
    omega
  | lenF f p =>
    have := writeVarint_length_pos ((f <<< 3) ||| 2)
    simp only [EField.bytes, writeTag, List.length_append]
    omega
  | metaF sid =>
    have := writeVarint_length_pos ((1 <<< 3) ||| 2)
    simp only [EField.bytes, writeTag, List.length_append]
    omega

/-- Running the parse loop over a concatenation of well-formed emitted
fields consumes them all, applying each field action in order, provided
the fuel exceeds the byte length. -/
theorem parseLoop_efields : ∀ (flds : List EField) (pre : List Nat) (acc : TranslateResponse)
    (fuel : Nat), (∀ fld ∈ flds, fld.wf) → (efsBytes flds).length + 1 ≤ fuel →
    parseLoop fuel ⟨pre ++ efsBytes flds, (pre.length : Int)⟩ acc
      = some (flds.foldl (fun a fld => fld.apply a) acc) := by
  intro flds
  induction flds with
  | nil =>
    intro pre acc fuel _ hfuel
    obtain ⟨k, rfl⟩ : ∃ k, fuel = k + 1 := ⟨fuel - 1, by omega⟩
    simp only [efsBytes, List.append_nil, List.foldl_nil]
    simp only [parseLoop,
      hasMore_false (show ¬ ((pre.length : Int) < ((pre : List Nat).length : Int)) from by omega),
      Bool.false_eq_true, if_false]
  | cons fld flds ih =>
    intro pre acc fuel hwf hfuel
    have hwf1 : fld.wf := hwf fld (by simp)
    have hwfr : ∀ g ∈ flds, g.wf := fun g hg => hwf g (by simp [hg])
    have hlen_efs : (efsBytes (fld :: flds)).length
        = fld.bytes.length + (efsBytes flds).length := by
      simp [efsBytes, List.length_append]
    have hbpos := EField.bytes_pos fld
    obtain ⟨fuel', rfl⟩ : ∃ k, fuel = k + 1 := ⟨fuel - 1, by omega⟩
    have hfuel' : (efsBytes flds).length + 1 ≤ fuel' := by omega
    rw [show pre ++ efsBytes (fld :: flds) = pre ++ fld.bytes ++ efsBytes flds from by
      simp [efsBytes, List.append_assoc]]
    cases fld with
    | varintF f v =>
      obtain ⟨hf, hv⟩ := hwf1
      rw [show EField.bytes (EField.varintF f v) = writeTag f 0 ++ writeVarint v from rfl]
      rw [parseLoop_varint_field f v pre (efsBytes flds) acc fuel' hf hv]
      have hih := ih (pre ++ (writeTag f 0 ++ writeVarint v)) (applyVarintField f v acc)
        fuel' hwfr hfuel'
      rw [List.length_append] at hih
      rw [hih]
      simp [List.foldl_cons, EField.apply]
    | lenF f p =>
      obtain ⟨hf, hf1, hp⟩ := hwf1
      rw [show EField.bytes (EField.lenF f p)
          = writeTag f 2 ++ writeVarint p.length ++ p from rfl]
      rw [parseLoop_len_field f p pre (efsBytes flds) acc fuel' hf hf1 hp]
      have hih := ih (pre ++ (writeTag f 2 ++ writeVarint p.length ++ p)) (applyLenField f p acc)
        fuel' hwfr hfuel'
      rw [List.length_append] at hih
      rw [hih]
      simp [List.foldl_cons, EField.apply]
    | metaF sid =>
      obtain ⟨hsid, hslen⟩ := hwf1
      have hws := writeString_length_pos (f := 6) hsid
      have hb3 : 3 ≤ (EField.bytes (EField.metaF sid)).length := by
        have h1 := writeVarint_length_pos ((1 <<< 3) ||| 2)
        have h2 := writeVarint_length_pos (writeString 6 sid).length
        simp only [EField.bytes, writeTag, List.length_append]
        omega
      rw [show EField.bytes (EField.metaF sid)
          = writeTag 1 2 ++ writeVarint (writeString 6 sid).length ++ writeString 6 sid
          from rfl]
      rw [parseLoop_meta_field sid pre (efsBytes flds) acc fuel' hsid hslen (by omega)]
      have hih := ih
        (pre ++ (writeTag 1 2 ++ writeVarint (writeString 6 sid).length ++ writeString 6 sid))
        acc fuel' hwfr hfuel'
      rw [List.length_append] at hih
      rw [hih]
      simp [List.foldl_cons, EField.apply]

theorem efsBytes_append : ∀ (A B : List EField), efsBytes (A ++ B) = efsBytes A ++ efsBytes B := by
  intro A B
  induction A with
  | nil => simp [efsBytes]
  | cons x A ih => simp [efsBytes, ih, List.append_assoc]

theorem writeString_length_le (f : Nat) (s : List Nat) :
    (writeString f s).length ≤ s.length + 12 := by
  rw [writeString]
  split
  · simp
  · have h1 := writeVarint_length_le ((f <<< 3) ||| 2)
    have h2 := writeVarint_length_le s.length
    simp only [writeTag, List.length_append]
    omega

theorem writeBytes_length_le (f : Nat) (s : List Nat) :
    (writeBytes f s).length ≤ s.length + 12 := by
  rw [writeBytes]
  split
  · simp
  · have h1 := writeVarint_length_le ((f <<< 3) ||| 2)
    have h2 := writeVarint_length_le s.length
    simp only [writeTag, List.length_append]
    omega

theorem writeInt32_length_le (f v : Nat) : (writeInt32 f v).length ≤ 12 := by
  rw [writeInt32]
  split
  · simp
  · have h1 := writeVarint_length_le ((f <<< 3) ||| 0)
    have h2 := writeVarint_length_le v
    simp only [writeTag, List.length_append]
    omega

theorem ite_length_le (c : Prop) [Decidable c] (X : List Nat) :
    (if c then X else []).length ≤ X.length := by
  split <;> simp

/-- buildTranslateRequest emits exactly the concatenation of its field
list. -/
theorem build_eq_efsBytes (o : TranslateRequestOptions) :
    buildTranslateRequest o = efsBytes (fieldsOf o) := by
  unfold buildTranslateRequest fieldsOf
  rw [efsBytes_append, efsBytes_append, efsBytes_append, efsBytes_append, efsBytes_append]
  congr 1
  congr 1
  congr 1
  congr 1
  congr 1
  · -- field 1: request_meta
    by_cases h : o.sessionId = []
    · simp [h, efsBytes]
    · have hw : writeString 6 o.sessionId ≠ [] := by
        intro hnil
        have hp := writeString_length_pos (f := 6) h
        rw [hnil] at hp
        simp at hp
      simp [h, efsBytes, EField.bytes, writeMessage, hw]
  · -- field 2: event
    by_cases h : o.event = 0 <;> simp [h, efsBytes, EField.bytes, writeInt32]
  · -- field 3: user
    cases o.user with
    | none => simp [efsBytes]
    | some u =>
      simp only [writeMessage]
      by_cases h : (writeString 1 u.uid ++ writeString 2 u.did ++ writeString 3 u.platform
          ++ writeString 4 u.sdkVersion) = []
      · rw [if_pos h, if_neg (not_not_intro h)]
        simp [efsBytes]
      · rw [if_neg h, if_pos h]
        simp [efsBytes, EField.bytes]
  · -- field 4: source_audio
    cases o.sourceAudio with
    | none => simp [efsBytes]
    | some a =>
      simp only [writeMessage]
      by_cases h : ((if a.format ≠ [] then writeString 4 a.format else [])
          ++ (if a.rate ≠ 0 then writeInt32 7 a.rate else [])
          ++ (if a.bits ≠ 0 then writeInt32 8 a.bits else [])
          ++ (if a.channel ≠ 0 then writeInt32 9 a.channel else [])
          ++ (if a.binaryData ≠ [] then writeBytes 14 a.binaryData else [])) = []
      · rw [if_pos h, if_neg (not_not_intro h)]
        simp [efsBytes]
      · rw [if_neg h, if_pos h]
        simp [efsBytes, EField.bytes]
  · -- field 5: target_audio
    cases o.targetAudio with
    | none => simp [efsBytes]
    | some a =>
      simp only [writeMessage]
      by_cases h : ((if a.format ≠ [] then writeString 4 a.format else [])
          ++ (if a.rate ≠ 0 then writeInt32 7 a.rate else [])) = []
      · rw [if_pos h, if_neg (not_not_intro h)]
        simp [efsBytes]
      · rw [if_neg h, if_pos h]
        simp [efsBytes, EField.bytes]
  · -- field 6: request parameters
    cases o.request with
    | none => simp [efsBytes]
    | some r =>
      simp only [writeMessage]
      by_cases h : ((if r.mode ≠ [] then writeString 1 r.mode else [])
          ++ (if r.sourceLanguage ≠ [] then writeString 2 r.sourceLanguage else [])
          ++ (if r.targetLanguage ≠ [] then writeString 3 r.targetLanguage else [])) = []
      · rw [if_pos h, if_neg (not_not_intro h)]
        simp [efsBytes]
      · rw [if_neg h, if_pos h]
        simp [efsBytes, EField.bytes]

theorem mem_ite_singleton {c : Prop} [Decidable c] {fld x : EField}
    (h : fld ∈ (if c then [x] else [])) : c ∧ fld = x := by
  by_cases hc : c
  · rw [if_pos hc] at h
    simp only [List.mem_singleton] at h
    exact ⟨hc, h⟩
  · rw [if_neg hc] at h
    simp at h

/-- Every field buildTranslateRequest emits is well formed when the
options are bounded. -/
theorem fieldsOf_wf (o : TranslateRequestOptions) (hb : o.Bounded) :
    ∀ fld ∈ fieldsOf o, fld.wf := by
  obtain ⟨he, hsl, hu, hsa, hta, hr⟩ := hb
  intro fld hm
  simp only [fieldsOf, List.mem_append] at hm
  rcases hm with ((((h1 | h2) | h3) | h4) | h5) | h6
  · obtain ⟨hc, rfl⟩ := mem_ite_singleton h1
    exact ⟨hc, hsl⟩
  · obtain ⟨hc, rfl⟩ := mem_ite_singleton h2
    exact ⟨by norm_num, by omega⟩
  · cases huser : o.user with
    | none => simp only [huser] at h3; simp at h3
    | some u =>
      simp only [huser] at h3
      obtain ⟨hc, rfl⟩ := mem_ite_singleton h3
      refine ⟨by norm_num, by norm_num, ?_⟩
      obtain ⟨b1, b2, b3, b4⟩ := hu u huser
      have l1 := writeString_length_le 1 u.uid
      have l2 := writeString_length_le 2 u.did
      have l3 := writeString_length_le 3 u.platform
      have l4 := writeString_length_le 4 u.sdkVersion
      simp only [List.length_append]
      omega
  · cases hsrc : o.sourceAudio with
    | none => simp only [hsrc] at h4; simp at h4
    | some a =>
      simp only [hsrc] at h4
      obtain ⟨hc, rfl⟩ := mem_ite_singleton h4
      refine ⟨by norm_num, by norm_num, ?_⟩
      obtain ⟨b1, b2, b3, b4, b5⟩ := hsa a hsrc
      have l1 := le_trans (ite_length_le (a.format ≠ []) _) (writeString_length_le 4 a.format)
      have l2 := le_trans (ite_length_le (a.rate ≠ 0) _) (writeInt32_length_le 7 a.rate)
      have l3 := le_trans (ite_length_le (a.bits ≠ 0) _) (writeInt32_length_le 8 a.bits)
      have l4 := le_trans (ite_length_le (a.channel ≠ 0) _) (writeInt32_length_le 9 a.channel)
      have l5 := le_trans (ite_length_le (a.binaryData ≠ []) _) (writeBytes_length_le 14 a.binaryData)
      simp only [List.length_append] at l1 l2 l3 l4 l5 ⊢
      omega
  · cases htgt : o.targetAudio with
    | none => simp only [htgt] at h5; simp at h5
    | some a =>
      simp only [htgt] at h5
      obtain ⟨hc, rfl⟩ := mem_ite_singleton h5
      refine ⟨by norm_num, by norm_num, ?_⟩
      obtain ⟨b1, b2⟩ := hta a htgt
      have l1 := le_trans (ite_length_le (a.format ≠ []) _) (writeString_length_le 4 a.format)
      have l2 := le_trans (ite_length_le (a.rate ≠ 0) _) (writeInt32_length_le 7 a.rate)
      simp only [List.length_append] at l1 l2 ⊢
      omega
  · cases hreq : o.request with
    | none => simp only [hreq] at h6; simp at h6
    | some r =>
      simp only [hreq] at h6
      obtain ⟨hc, rfl⟩ := mem_ite_singleton h6
      refine ⟨by norm_num, by norm_num, ?_⟩
      obtain ⟨b1, b2, b3⟩ := hr r hreq
      have l1 := le_trans (ite_length_le (r.mode ≠ []) _) (writeString_length_le 1 r.mode)
      have l2 := le_trans (ite_length_le (r.sourceLanguage ≠ []) _) (writeString_length_le 2 r.sourceLanguage)
      have l3 := le_trans (ite_length_le (r.targetLanguage ≠ []) _) (writeString_length_le 3 r.targetLanguage)
      simp only [List.length_append] at l1 l2 l3 ⊢
      omega

theorem apply_event_neutral (fld : EField) (h : ∀ v, fld ≠ EField.varintF 2 v)
    (acc : TranslateResponse) : (fld.apply acc).event = acc.event := by
  cases fld with
  | varintF f v =>
    have hf2 : f ≠ 2 := by
      intro hf
      exact h v (by rw [hf])
    simp only [EField.apply, applyVarintField, if_neg hf2]
    split_ifs <;> rfl
  | lenF f p =>
    simp only [EField.apply, applyLenField]
    split_ifs <;> rfl
  | metaF sid => rfl

theorem foldl_apply_event_neutral : ∀ (flds : List EField) (acc : TranslateResponse),
    (∀ fld ∈ flds, ∀ v, fld ≠ EField.varintF 2 v) →
    (flds.foldl (fun a fld => fld.apply a) acc).event = acc.event := by
  intro flds
  induction flds with
  | nil => intro acc _; rfl
  | cons fld flds ih =>
    intro acc h
    rw [List.foldl_cons, ih _ (fun g hg => h g (by simp [hg]))]
    exact apply_event_neutral fld (h fld (by simp)) acc

theorem mem_ite_singleton_neutral {c : Prop} [Decidable c] {x : EField}
    (hx : ∀ v, x ≠ EField.varintF 2 v) :
    ∀ fld ∈ (if c then [x] else []), ∀ v, fld ≠ EField.varintF 2 v := by
  intro fld hm
  obtain ⟨_, rfl⟩ := mem_ite_singleton hm
  exact hx

/-- The event stored by the parse of buildTranslateRequest equals the
event in the options: the only field that writes it is field 2. -/
theorem fieldsOf_event (o : TranslateRequestOptions) :
    ((fieldsOf o).foldl (fun a fld => fld.apply a) ({} : TranslateResponse)).event
      = (o.event : Int) := by
  rw [fieldsOf]
  rw [List.foldl_append, List.foldl_append, List.foldl_append, List.foldl_append,
    List.foldl_append]
  have h6 : ∀ fld ∈ (match o.request with
      | some r =>
        let p := (if r.mode ≠ [] then writeString 1 r.mode else [])
          ++ (if r.sourceLanguage ≠ [] then writeString 2 r.sourceLanguage else [])
          ++ (if r.targetLanguage ≠ [] then writeString 3 r.targetLanguage else [])
        if p ≠ [] then [EField.lenF 6 p] else []
      | none => []), ∀ v, fld ≠ EField.varintF 2 v := by
    intro fld hm
    cases hreq : o.request with
    | none => simp only [hreq] at hm; simp at hm
    | some r =>
      simp only [hreq] at hm
      exact mem_ite_singleton_neutral (by intro v h; cases h) fld hm
  have h5 : ∀ fld ∈ (match o.targetAudio with
      | some a =>
        let p := (if a.format ≠ [] then writeString 4 a.format else [])
          ++ (if a.rate ≠ 0 then writeInt32 7 a.rate else [])
        if p ≠ [] then [EField.lenF 5 p] else []
      | none => []), ∀ v, fld ≠ EField.varintF 2 v := by
    intro fld hm
    cases htgt : o.targetAudio with
    | none => simp only [htgt] at hm; simp at hm
    | some a =>
      simp only [htgt] at hm
      exact mem_ite_singleton_neutral (by intro v h; cases h) fld hm
  have h4 : ∀ fld ∈ (match o.sourceAudio with
      | some a =>
        let p := (if a.format ≠ [] then writeString 4 a.format else [])
          ++ (if a.rate ≠ 0 then writeInt32 7 a.rate else [])
          ++ (if a.bits ≠ 0 then writeInt32 8 a.bits else [])
          ++ (if a.channel ≠ 0 then writeInt32 9 a.channel else [])
          ++ (if a.binaryData ≠ [] then writeBytes 14 a.binaryData else [])
        if p ≠ [] then [EField.lenF 4 p] else []
      | none => []), ∀ v, fld ≠ EField.varintF 2 v := by
    intro fld hm
    cases hsrc : o.sourceAudio with
    | none => simp only [hsrc] at hm; simp at hm
    | some a =>
      simp only [hsrc] at hm
      exact mem_ite_singleton_neutral (by intro v h; cases h) fld hm
  have h3 : ∀ fld ∈ (match o.user with
      | some u =>
        let p := writeString 1 u.uid ++ writeString 2 u.did
          ++ writeString 3 u.platform ++ writeString 4 u.sdkVersion
        if p ≠ [] then [EField.lenF 3 p] else []
      | none => []), ∀ v, fld ≠ EField.varintF 2 v := by
    intro fld hm
    cases huser : o.user with
    | none => simp only [huser] at hm; simp at hm
    | some u =>
      simp only [huser] at hm
      exact mem_ite_singleton_neutral (by intro v h; cases h) fld hm
  have h1 : ∀ fld ∈ (if o.sessionId ≠ [] then [EField.metaF o.sessionId] else []),
      ∀ v, fld ≠ EField.varintF 2 v :=
    mem_ite_singleton_neutral (by intro v h; cases h)
  rw [foldl_apply_event_neutral _ _ h6, foldl_apply_event_neutral _ _ h5,
    foldl_apply_event_neutral _ _ h4, foldl_apply_event_neutral _ _ h3]
  by_cases he : o.event = 0
  · rw [if_neg (not_not_intro he), List.foldl_nil, foldl_apply_event_neutral _ _ h1, he]
    rfl
  · rw [if_pos he, List.foldl_cons, List.foldl_nil]
    simp [EField.apply, applyVarintField]

/-- Parsing the bytes of buildTranslateRequest yields exactly the foldl of
the emitted field actions over the default result. -/
theorem parse_build_foldl (o : TranslateRequestOptions) (hb : o.Bounded) :
    parseTranslateResponse (buildTranslateRequest o)
      = some ((fieldsOf o).foldl (fun a fld => fld.apply a) ({} : TranslateResponse)) := by
  rw [parseTranslateResponse, build_eq_efsBytes]
  have h := parseLoop_efields (fieldsOf o) [] ({} : TranslateResponse)
    ((efsBytes (fieldsOf o)).length + 1) (fieldsOf_wf o hb) (Nat.le_refl _)
  simpa using h

/-- C1: corrected.  Decoding the bytes produced by encoding reproduces the
event code (for every bounded options value), but not the field values:
buildTranslateRequest encodes the request schema while
parseTranslateResponse decodes the response schema, so the session-id is
dropped (its nested field number 6 is not a response_meta field), the
user-info block is returned as the raw `data` bytes, and the source-audio
block as the `text` bytes. -/
theorem c1_decode_encode_reproduces_event (o : TranslateRequestOptions) (hb : o.Bounded) :
    ∃ r, parseTranslateResponse (buildTranslateRequest o) = some r
      ∧ r.event = (o.event : Int) :=
  ⟨_, parse_build_foldl o hb, fieldsOf_event o⟩

/-- C1 counterexample: on a fully-populated options value with
sessionId "a" (byte 97), decoding the encoded request does not reproduce
the session-id - the decoded response_meta SessionID is empty. -/
theorem c1_sessionid_not_reproduced :
    (parseTranslateResponse (buildTranslateRequest c1ExampleOptions)).map
        (fun r => r.responseMeta.SessionID) ≠ some c1ExampleOptions.sessionId := by
  decide

/-- C1 witness: the event round trip evaluated on the example options. -/
theorem c1_decode_encode_reproduces_event_witness :
    ∃ r, parseTranslateResponse (buildTranslateRequest c1ExampleOptions) = some r
      ∧ r.event = (100 : Int) := by
  have hb : c1ExampleOptions.Bounded := by
    refine ⟨by decide, by decide, ?_, ?_, ?_, ?_⟩
    · intro u hu
      rw [show c1ExampleOptions.user = some ⟨[119, 101], [100], [112], [49]⟩ from rfl] at hu
      injection hu with h
      subst h
      refine ⟨by norm_num, by norm_num, by norm_num, by norm_num⟩
    · intro a ha
      rw [show c1ExampleOptions.sourceAudio = some ⟨[119, 97, 118], 16000, 16, 1, []⟩
        from rfl] at ha
      injection ha with h
      subst h
      refine ⟨by norm_num, by norm_num, by norm_num, by norm_num, by norm_num⟩
    · intro a ha
      rw [show c1ExampleOptions.targetAudio = some ⟨[111, 103, 103], 24000⟩ from rfl] at ha
      injection ha with h
      subst h
      exact ⟨by norm_num, by norm_num⟩
    · intro r hr
      rw [show c1ExampleOptions.request = some ⟨[115, 50, 115], [122, 104], [101, 110]⟩
        from rfl] at hr
      injection hr with h
      subst h
      refine ⟨by norm_num, by norm_num, by norm_num⟩
  obtain ⟨r, h1, h2⟩ := c1_decode_encode_reproduces_event c1ExampleOptions hb
  exact ⟨r, h1, by rw [h2]; rfl⟩

/-- C2: corrected.  Reading back an emitted varint returns the signed
32-bit reinterpretation of the value: exact for values below 2^31, the
value minus 2^32 on [2^31, 2^32) (the reader accumulates with the 32-bit
`|=` and `<<`), and the reinterpretation of the 32-bit truncation beyond
2^32 (the writer shifts with the unsigned 32-bit `>>>=`, so no encoding
ever exceeds five bytes). -/
theorem c2_varint_roundtrip_signed (n : Nat) :
    (ProtobufReader.readVarint ⟨writeVarint n, 0⟩).1 = jsToInt32 (n : Int) :=
  readVarint_writeVarint_toInt32 n

/-- C2 counterexample: the varint round trip fails inside [0, 2^32): the
value 2^31 decodes to -2^31, not 2^31. -/
theorem c2_varint_roundtrip_fails_at_2_31 :
    (ProtobufReader.readVarint ⟨writeVarint 2147483648, 0⟩).1 = -2147483648
      ∧ (-2147483648 : Int) ≠ 2147483648 := by
  constructor
  · decide
  · decide

theorem applyVarintField_unknown (v : Nat) (acc : TranslateResponse) {f : Nat} (hf : 8 < f) :
    applyVarintField f v acc = acc := by
  simp only [applyVarintField]
  rw [if_neg (by omega), if_neg (by omega), if_neg (by omega), if_neg (by omega),
    if_neg (by omega)]

theorem applyLenField_unknown (p : List Nat) (acc : TranslateResponse) {f : Nat} (hf : 8 < f) :
    applyLenField f p acc = acc := by
  simp only [applyLenField]
  rw [if_neg (by omega), if_neg (by omega)]

/-- A buffer ending mid-varint is decoded without any error: the tag byte
0x10 selects the event field, the final byte `0x80 + g` has its
continuation bit set, and the loop simply runs off the end of the buffer
and returns the bits accumulated so far, so the parse silently yields
event `g`. -/
theorem parse_truncated_varint {g : Nat} (hg : g < 128) :
    parseTranslateResponse [16, 128 + g] = some { event := (g : Int) } := by
  have h0 : (0 : Int) < (([16, 128 + g] : List Nat).length : Int) := by norm_num
  have h2 : ¬ ((2 : Int) < (([16, 128 + g] : List Nat).length : Int)) := by norm_num
  have hr1 : ProtobufReader.readVarint ⟨[16, 128 + g], 0⟩
      = ((16 : Int), ⟨[16, 128 + g], 1⟩) := by
    have h := reader_readVarint_at (by norm_num : (16 : Nat) < 2147483648) [] [128 + g]
    rw [show writeVarint 16 = [16] from rfl] at h
    simpa using h
  have hval : jsOr32 0 (jsShl32 (((128 + g) &&& 127 : Nat) : Int) 0) = (g : Int) := by
    rw [nat_and_127, show (128 + g) % 128 = g from by omega]
    rw [jsShl32_natCast (by omega) (by norm_num : (0 : Nat) < 32)]
    simp only [pow_zero, Nat.mul_one]
    rw [show (0 : Int) = ((0 : Nat) : Int) from rfl]
    rw [jsOr32_natCast (by norm_num) (by omega)]
    simp only [Nat.zero_or]
    exact jsToInt32_natCast_of_lt (by omega)
  have hloop : readVarintLoop [16, 128 + g] 1 0 0 = ((g : Int), 2) := by
    rw [readVarintLoop_eq,
      if_pos (show (1 : Int) < (([16, 128 + g] : List Nat).length : Int) from by norm_num)]
    have hb : jsByte [16, 128 + g] 1 = 128 + g := by
      have h := jsByte_append [16] (128 + g) []
      simpa using h
    simp only [hb]
    have heq : (128 + g) &&& 128 = 128 := by
      rw [Nat.add_comm]
      exact nat_add_128_and_128 hg
    rw [if_neg (by omega : ¬ ((128 + g) &&& 128 = 0)), hval]
    rw [readVarintLoop_eq,
      if_neg (show ¬ ((1 : Int) + 1 < (([16, 128 + g] : List Nat).length : Int)) from by
        norm_num)]
    norm_num
  have hr2 : ProtobufReader.readVarint ⟨[16, 128 + g], 1⟩
      = ((g : Int), ⟨[16, 128 + g], 2⟩) := by
    unfold ProtobufReader.readVarint
    simp only [hloop]
  have step : ∀ fuel : Nat, parseLoop (fuel + 1) ⟨[16, 128 + g], 0⟩ {}
      = parseLoop fuel ⟨[16, 128 + g], 2⟩ { event := (g : Int) } := by
    intro fuel
    simp only [parseLoop, hasMore_true h0, if_true, hr1, hr2,
      show jsShrU32 16 3 = 2 from by decide,
      show jsUint32 16 &&& 7 = 0 from by decide,
      if_pos (show (0 : Nat) = 0 from rfl),
      if_pos (show (2 : Nat) = 2 from rfl)]
  have hend : ∀ fuel : Nat, parseLoop (fuel + 1) ⟨[16, 128 + g], 2⟩ { event := (g : Int) }
      = some { event := (g : Int) } := by
    intro fuel
    simp only [parseLoop, hasMore_false h2, Bool.false_eq_true, if_false]
  rw [parseTranslateResponse,
    show (([16, 128 + g] : List Nat).length + 1) = 2 + 1 from by norm_num,
    step 2, show (2 : Nat) = 1 + 1 from rfl, hend 1]

/-- C3: corrected.  Decoding never raises at all.  Unknown field keys are
indeed skipped according to their wire type (a varint or length-delimited
field with an unrecognized number leaves the result unchanged and the
parse continues right after its bytes), but a buffer truncated mid-varint
is not an error either: the reader silently returns the bits accumulated
before the buffer ran out, so e.g. `[0x10, 0x80 + g]` decodes to event
`g` rather than raising a framing error. -/
theorem c3_decode_never_raises :
    (∀ f v rest acc fuel, f < 268435456 → 8 < f → v < 2147483648 →
      parseLoop (fuel + 1) ⟨(writeTag f 0 ++ writeVarint v) ++ rest, 0⟩ acc
        = parseLoop fuel
            ⟨(writeTag f 0 ++ writeVarint v) ++ rest,
             ((writeTag f 0 ++ writeVarint v).length : Int)⟩ acc)
  ∧ (∀ f payload rest acc fuel, f < 268435456 → 8 < f → payload.length < 2147483648 →
      parseLoop (fuel + 1)
          ⟨(writeTag f 2 ++ writeVarint payload.length ++ payload) ++ rest, 0⟩ acc
        = parseLoop fuel
            ⟨(writeTag f 2 ++ writeVarint payload.length ++ payload) ++ rest,
             ((writeTag f 2 ++ writeVarint payload.length ++ payload).length : Int)⟩ acc)
  ∧ (∀ g, g < 128 → parseTranslateResponse [16, 128 + g] = some { event := (g : Int) }) := by
  refine ⟨?_, ?_, ?_⟩
  · intro f v rest acc fuel hf hf8 hv
    have h := parseLoop_varint_field f v [] rest acc fuel hf hv
    rw [applyVarintField_unknown v acc hf8] at h
    simpa using h
  · intro f payload rest acc fuel hf hf8 hlen
    have h := parseLoop_len_field f payload [] rest acc fuel hf (by omega) hlen
    rw [applyLenField_unknown payload acc hf8] at h
    simpa using h
  · intro g hg
    exact parse_truncated_varint hg

/-- C3 counterexample: the spec says decode raises a framing error on a
buffer truncated mid-varint; instead the truncated buffer [0x10, 0xFF]
silently decodes to the partial value event = 127. -/
theorem c3_truncation_not_an_error :
    parseTranslateResponse [16, 255] = some { event := (127 : Int) } := by
  decide

/-- C3 witness: an unknown varint field (key 9) is skipped, and the
truncated buffer [0x10, 0x80 + 127] decodes silently. -/
theorem c3_decode_never_raises_witness :
    parseLoop (1 + 1) ⟨(writeTag 9 0 ++ writeVarint 5) ++ [], 0⟩ {}
        = parseLoop 1 ⟨(writeTag 9 0 ++ writeVarint 5) ++ [],
            ((writeTag 9 0 ++ writeVarint 5).length : Int)⟩ {}
      ∧ parseTranslateResponse [16, 128 + 127] = some { event := (127 : Int) } :=
  ⟨c3_decode_never_raises.1 9 5 [] {} 1 (by norm_num) (by norm_num) (by norm_num),
   c3_decode_never_raises.2.2 127 (by norm_num)⟩

/-! ## The diverging parse -/

theorem parseMetaLoop_nil (fuel : Nat) (m : ResponseMeta) :
    parseMetaLoop (fuel + 1) ⟨[], 0⟩ m = some m := by
  simp only [parseMetaLoop,
    hasMore_false (show ¬ ((0 : Int) < (([] : List Nat).length : Int)) from by norm_num),
    Bool.false_eq_true, if_false]

theorem divergingBuffer_rv0 :
    ProtobufReader.readVarint ⟨divergingBuffer, 0⟩ = ((10 : Int), ⟨divergingBuffer, 1⟩) := by
  decide

theorem divergingBuffer_rv1 :
    ProtobufReader.readVarint ⟨divergingBuffer, 1⟩ = ((-8 : Int), ⟨divergingBuffer, 6⟩) := by
  decide

theorem divergingBuffer_rb :
    ProtobufReader.readBytes ⟨divergingBuffer, 6⟩ (-8)
      = (([] : List Nat), ⟨divergingBuffer, -2⟩) := by
  decide

theorem divergingBuffer_rv2 :
    ProtobufReader.readVarint ⟨divergingBuffer, -2⟩ = ((0 : Int), ⟨divergingBuffer, -1⟩) := by
  decide

theorem divergingBuffer_rv3 :
    ProtobufReader.readVarint ⟨divergingBuffer, -1⟩ = ((0 : Int), ⟨divergingBuffer, 0⟩) := by
  decide

/-- Two loop iterations return the parse to its starting state: the
length -8 moves the offset from 6 back to -2, and two zero bytes read
out of range bring it back to 0 with the result unchanged. -/
theorem parseLoop_diverge_step (fuel : Nat) (acc : TranslateResponse) :
    parseLoop (fuel + 1 + 1) ⟨divergingBuffer, 0⟩ acc
      = parseLoop fuel ⟨divergingBuffer, 0⟩ acc := by
  have h0 : (0 : Int) < ((divergingBuffer : List Nat).length : Int) := by
    norm_num [divergingBuffer]
  have hm2 : (-2 : Int) < ((divergingBuffer : List Nat).length : Int) := by
    norm_num [divergingBuffer]
  simp only [parseLoop, hasMore_true h0, hasMore_true hm2, if_true,
    divergingBuffer_rv0, divergingBuffer_rv1, divergingBuffer_rb,
    divergingBuffer_rv2, divergingBuffer_rv3,
    show jsShrU32 10 3 = 1 from by decide,
    show jsUint32 10 &&& 7 = 2 from by decide,
    show jsShrU32 0 3 = 0 from by decide,
    show jsUint32 0 &&& 7 = 0 from by decide,
    if_neg (show ¬ (2 : Nat) = 0 from by norm_num),
    if_pos (show (2 : Nat) = 2 from rfl),
    if_pos (show (1 : Nat) = 1 from rfl),
    if_pos (show (0 : Nat) = 0 from rfl),
    if_neg (show ¬ (0 : Nat) = 2 from by norm_num),
    if_neg (show ¬ (0 : Nat) = 5 from by norm_num),
    if_neg (show ¬ (0 : Nat) = 6 from by norm_num),
    if_neg (show ¬ (0 : Nat) = 7 from by norm_num),
    if_neg (show ¬ (0 : Nat) = 8 from by norm_num),
    parseMetaLoop_nil, respMeta_eta]

theorem parseLoop_diverge_one (acc : TranslateResponse) :
    parseLoop 1 ⟨divergingBuffer, 0⟩ acc = none := by
  have h0 : (0 : Int) < ((divergingBuffer : List Nat).length : Int) := by
    norm_num [divergingBuffer]
  rw [show (1 : Nat) = 0 + 1 from rfl]
  simp only [parseLoop, parseMetaLoop, hasMore_true h0, if_true,
    divergingBuffer_rv0, divergingBuffer_rv1, divergingBuffer_rb,
    show jsShrU32 10 3 = 1 from by decide,
    show jsUint32 10 &&& 7 = 2 from by decide,
    if_neg (show ¬ (2 : Nat) = 0 from by norm_num),
    if_pos (show (2 : Nat) = 2 from rfl),
    if_pos (show (1 : Nat) = 1 from rfl)]

/-- No fuel bound suffices on the diverging buffer: the while-loop of
parseTranslateResponse revisits offset 0 with an unchanged result
object every two iterations. -/
theorem parseLoop_diverges :
    ∀ fuel acc, parseLoop fuel ⟨divergingBuffer, 0⟩ acc = none := by
  intro fuel
  induction fuel using Nat.strong_induction_on with
  | _ n ih =>
    rcases n with _ | _ | n
    · intro acc
      rfl
    · intro acc
      exact parseLoop_diverge_one acc
    · intro acc
      rw [show n + 1 + 1 = n + 1 + 1 from rfl, parseLoop_diverge_step n acc]
      exact ih n (by omega) acc

/-- C10: refuted (code bug).  Decode is not total: on the six-byte
buffer 0A F8 FF FF FF 0F the length varint decodes to -8 under the
reader's 32-bit accumulation, Buffer.slice clamps the payload to empty
while the offset moves backwards to -2, out-of-range reads supply zero
bytes, and the loop revisits offset 0 with an unchanged result object -
the parse never terminates, so no fuel bound suffices. -/
theorem c10_decode_not_total :
    parseTranslateResponse divergingBuffer = none
      ∧ ∀ fuel acc, parseLoop fuel ⟨divergingBuffer, 0⟩ acc = none :=
  ⟨parseLoop_diverges _ _, parseLoop_diverges⟩

/-! ## The playback queue -/

theorem handsOf_append (a b : List PlayAct) : handsOf (a ++ b) = handsOf a ++ handsOf b := by
  simp [handsOf]

theorem altState_append_hand (tr : List PlayAct) (t : List Nat)
    (h : altState tr = some none) : altState (tr ++ [.hand t]) = some (some t) := by
  rw [altState, List.foldl_append]
  rw [altState] at h
  rw [h]
  rfl

theorem altState_append_done (tr : List PlayAct) (t : List Nat)
    (h : altState tr = some (some t)) : altState (tr ++ [.done t]) = some none := by
  rw [altState, List.foldl_append]
  rw [altState] at h
  rw [h]
  simp [altFold]

theorem stepPlayer_inv {s : PlayerState} (hs : PlayerInv s) (e : PlayerEvent) :
    PlayerInv (stepPlayer s e) := by
  obtain ⟨h1, h2, h3, h4, h5⟩ := hs
  cases e with
  | queueAudio f =>
    exact ⟨h1, h2, h3, h4, h5⟩
  | toggleMute =>
    exact ⟨h1, h2, h3, h4, h5⟩
  | playQueuedAudio =>
    simp only [stepPlayer]
    by_cases hc : s.audioChunks = []
    · rw [if_pos hc]
      exact ⟨h1, h2, h3, h4, h5⟩
    · rw [if_neg hc]
      by_cases hm : s.isMuted = true
      · rw [if_pos hm]
        exact ⟨h1, h2, h3, h4, h5⟩
      · rw [if_neg hm]
        by_cases hp : s.isProcessing = true
        · rw [if_pos hp]
          refine ⟨h1, ?_, ?_, ?_, ?_⟩
          · rw [h2, List.append_assoc]
          · intro q hq
            rcases List.mem_append.mp hq with hq | hq
            · exact h3 q hq
            · rw [List.mem_singleton.mp hq]
              exact hc
          · intro hf
            simp only at hf
            rw [hf] at hp
            cases hp
          · intro _
            exact hp
        · rw [if_neg hp]
          rw [Bool.not_eq_true] at hp
          obtain ⟨hq0, hpl0⟩ := h4 hp
          simp only [processQueueStep, hq0, List.nil_append, popPlay, if_neg hc]
          refine ⟨?_, ?_, ?_, ?_, ?_⟩
          · exact altState_append_hand _ _ (by rw [h1, hpl0])
          · rw [handsOf_append, h2, hq0]
            simp [handsOf]
          · intro q hq
            cases hq
          · intro hf
            cases hf
          · intro _
            rfl
  | audioEnded =>
    cases hpl : s.playing with
    | none =>
      simp only [stepPlayer, hpl]
      exact ⟨h1, h2, h3, h4, h5⟩
    | some t =>
      simp only [stepPlayer, hpl]
      have hproc : s.isProcessing = true := h5 (by rw [hpl]; exact Option.some_ne_none t)
      have halt : altState s.trace = some (some t) := by rw [h1, hpl]
      cases hq : s.playbackQueue with
      | nil =>
        simp only [processQueueStep, hq, popPlay]
        refine ⟨?_, ?_, ?_, ?_, ?_⟩
        · exact altState_append_done _ _ halt
        · rw [handsOf_append, h2, hq]
          simp [handsOf]
        · intro q hq'
          cases hq'
        · intro _
          exact ⟨rfl, rfl⟩
        · intro h
          exact absurd rfl h
      | cons c rest =>
        have hcne : c ≠ [] := h3 c (by rw [hq]; exact List.mem_cons_self c rest)
        simp only [processQueueStep, hq, popPlay, if_neg hcne]
        refine ⟨?_, ?_, ?_, ?_, ?_⟩
        · exact altState_append_hand _ _ (altState_append_done _ _ halt)
        · rw [handsOf_append, handsOf_append, h2, hq]
          simp [handsOf]
        · intro q hq'
          exact h3 q (by rw [hq]; exact List.mem_cons_of_mem c hq')
        · intro hf
          simp only at hf
          rw [hf] at hproc
          cases hproc
        · intro _
          exact hproc

theorem foldl_stepPlayer_inv (evs : List PlayerEvent) :
    ∀ s, PlayerInv s → PlayerInv (evs.foldl stepPlayer s) := by
  induction evs with
  | nil => exact fun s h => h
  | cons e t ih =>
    intro s h
    exact ih _ (stepPlayer_inv h e)

theorem initPlayer_inv : PlayerInv initPlayer := by
  refine ⟨rfl, rfl, ?_, ?_, ?_⟩
  · intro q hq
    cases hq
  · intro _
    exact ⟨rfl, rfl⟩
  · intro h
    exact absurd rfl h

theorem runPlayer_inv (evs : List PlayerEvent) : PlayerInv (runPlayer evs) :=
  foldl_stepPlayer_inv evs initPlayer initPlayer_inv

/-- C4: confirmed.  Strict turn-order playback: after any event
sequence, the device trace strictly alternates hand and matching done
(altState never rejects, so a turn is handed only after the previous
handed turn has fully finished), and the handed turns followed by the
still-waiting queue are exactly the enqueued turns in their arrival
order - each turn being the chunk list accumulated in arrival order. -/
theorem c4_strict_turn_order (evs : List PlayerEvent) :
    altState (runPlayer evs).trace = some (runPlayer evs).playing
      ∧ (runPlayer evs).enqueued
          = handsOf (runPlayer evs).trace ++ (runPlayer evs).playbackQueue :=
  ⟨(runPlayer_inv evs).1, (runPlayer_inv evs).2.1⟩

/-- C5: corrected.  Arriving fragments are buffered regardless of mute
(queueAudio never consults the mute flag and never hands audio to the
device); the mute flag is consulted only when the buffer is flushed: a
flush while muted discards the whole buffer, so fragments that arrived
during mute are played after unmute unless a muted flush intervened.  In
the amended scenario - mute, three fragments arrive, a muted flush
discards them, unmute, a fourth arrives and is flushed - only the fourth
reaches the device. -/
theorem c5_mute_discards_only_at_flush :
    (∀ s f, (stepPlayer s (.queueAudio f)).audioChunks = s.audioChunks ++ [f]
        ∧ (stepPlayer s (.queueAudio f)).trace = s.trace)
      ∧ (∀ s, s.isMuted = true →
          stepPlayer s .playQueuedAudio = { s with audioChunks := [] })
      ∧ (∀ a b c d : Nat,
          (runPlayer [.toggleMute, .queueAudio a, .queueAudio b, .queueAudio c,
            .playQueuedAudio, .toggleMute, .queueAudio d, .playQueuedAudio]).trace
            = [.hand [d]]) := by
  refine ⟨fun s f => ⟨rfl, rfl⟩, ?_, fun a b c d => rfl⟩
  intro s hm
  cases s with
  | mk a q m p pl tr enq =>
    simp only at hm
    subst hm
    simp only [stepPlayer]
    by_cases hc : a = []
    · rw [if_pos hc, hc]
    · rw [if_neg hc, if_pos trivial]

/-- C5 counterexample: a fragment arriving while muted is buffered, not
discarded, and is handed to the output device after unmute - refuting
both the arrival-time discard and the remain-discarded scenario. -/
theorem c5_muted_arrival_played_after_unmute :
    (runPlayer [.toggleMute, .queueAudio 0, .toggleMute, .playQueuedAudio]).trace
      = [.hand [0]] := by
  rfl

/-- C5 witness: the muted flush and the amended scenario on concrete
fragments. -/
theorem c5_mute_discards_only_at_flush_witness :
    stepPlayer { initPlayer with isMuted := true, audioChunks := [7] } .playQueuedAudio
        = { { initPlayer with isMuted := true, audioChunks := [7] } with audioChunks := [] }
      ∧ (runPlayer [.toggleMute, .queueAudio 1, .queueAudio 2, .queueAudio 3,
          .playQueuedAudio, .toggleMute, .queueAudio 4, .playQueuedAudio]).trace
          = [.hand [4]] :=
  ⟨c5_mute_discards_only_at_flush.2.1 _ rfl, c5_mute_discards_only_at_flush.2.2 1 2 3 4⟩

/-! ## The session bridge -/

/-- C8: confirmed.  An audio message from the browser while the session
is not active is a complete no-op: the bridge state - including every
upstream connection's sent-frame list - is left unchanged, so no
audio-data frame is transmitted upstream and nothing is queued. -/
theorem c8_audio_noop_when_inactive (s : BridgeState) (payload : List Nat)
    (h : s.isSessionActive = false) :
    stepBridge s (.browserAudio payload) = s := by
  cases hj : s.currentConn with
  | none => simp [stepBridge, hj]
  | some j =>
    cases hc : s.conns[j]? with
    | none => simp [stepBridge, hj, hc]
    | some c => simp [stepBridge, hj, hc, h]

/-- C8 witness: an audio message on the fresh bridge state changes
nothing. -/
theorem c8_audio_noop_when_inactive_witness :
    stepBridge initBridge (.browserAudio [1, 2, 3]) = initBridge :=
  c8_audio_noop_when_inactive initBridge [1, 2, 3] rfl

theorem handleVolcResponse_isa (s : BridgeState) (r : TranslateResponse) :
    (handleVolcResponse s r).isSessionActive = s.isSessionActive
      ∨ (handleVolcResponse s r).isSessionActive = false
      ∨ r.event = 150 := by
  by_cases h150 : r.event = 150
  · exact Or.inr (Or.inr h150)
  · simp only [handleVolcResponse, if_neg h150]
    repeat' split
    all_goals first | exact Or.inl rfl | exact Or.inr (Or.inl rfl)

/-- isSessionActive can change only to false, except through a decoded
event 150 on a volcMessage. -/
theorem stepBridge_isa (s : BridgeState) (e : BridgeEvent) :
    (stepBridge s e).isSessionActive = s.isSessionActive
      ∨ (stepBridge s e).isSessionActive = false
      ∨ ∃ i r, e = .volcMessage i r ∧ r.event = 150 := by
  cases e with
  | browserStart src tgt => exact Or.inl rfl
  | browserAudio payload =>
    simp only [stepBridge]
    repeat' split
    all_goals exact Or.inl rfl
  | browserStop =>
    simp only [stepBridge]
    repeat' split
    all_goals exact Or.inl rfl
  | browserClose =>
    simp only [stepBridge]
    repeat' split
    all_goals exact Or.inl rfl
  | volcOpen i =>
    simp only [stepBridge]
    repeat' split
    all_goals exact Or.inl rfl
  | volcError i message =>
    simp only [stepBridge]
    repeat' split
    all_goals exact Or.inl rfl
  | volcClose i =>
    simp only [stepBridge]
    repeat' split
    all_goals first | exact Or.inl rfl | exact Or.inr (Or.inl rfl)
  | volcMessage i r =>
    simp only [stepBridge]
    cases hc : s.conns[i]? with
    | none => exact Or.inl rfl
    | some c =>
      by_cases hst : c.status = .opened
      · simp only [if_pos hst]
        rcases handleVolcResponse_isa s r with h | h | h
        · exact Or.inl h
        · exact Or.inr (Or.inl h)
        · exact Or.inr (Or.inr ⟨i, r, rfl, h⟩)
      · simp only [if_neg hst]
        exact Or.inl trivial

/-- C9: confirmed.  The session becomes active, and the browser is sent
the ready status, only upon a decoded SessionStarted (event 150) on an
open upstream connection: the upstream open handler changes neither
isSessionActive nor the browser-bound messages, any step that turns
isSessionActive on is a volcMessage decoding to event 150, and such a
message on an open connection does activate and report ready. -/
theorem c9_active_only_on_session_started :
    (∀ s i, (stepBridge s (.volcOpen i)).isSessionActive = s.isSessionActive
        ∧ (stepBridge s (.volcOpen i)).browserSent = s.browserSent)
  ∧ (∀ s e, (stepBridge s e).isSessionActive = true → s.isSessionActive = true
        ∨ ∃ i r, e = .volcMessage i r ∧ r.event = 150)
  ∧ (∀ s i c r, s.conns[i]? = some c → c.status = .opened → r.event = 150 →
        stepBridge s (.volcMessage i r)
          = { s with isSessionActive := true,
                     browserSent := s.browserSent ++ [.statusReady] }) := by
  refine ⟨?_, ?_, ?_⟩
  · intro s i
    simp only [stepBridge]
    cases hc : s.conns[i]? with
    | none => exact ⟨rfl, rfl⟩
    | some c =>
      by_cases hst : c.status = .connecting
      · simp only [if_pos hst]
        cases hcur : s.currentConn with
        | none => exact ⟨rfl, rfl⟩
        | some j => simp [hcur]
      · simp [hst]
  · intro s e h
    rcases stepBridge_isa s e with h1 | h1 | h1
    · rw [h1] at h
      exact Or.inl h
    · rw [h1] at h
      cases h
    · exact Or.inr h1
  · intro s i c r hc hst h150
    simp only [stepBridge, hc, if_pos hst, handleVolcResponse, if_pos h150]

/-- C9 witness: event 150 on an open connection activates the session
and sends ready. -/
theorem c9_active_only_on_session_started_witness :
    stepBridge
        { conns := [⟨.opened, []⟩], currentConn := some 0, isSessionActive := false,
          sourceLanguage := zhBytes, targetLanguage := enBytes, browserSent := [] }
        (.volcMessage 0 { event := 150 })
      = { conns := [⟨.opened, []⟩], currentConn := some 0, isSessionActive := true,
          sourceLanguage := zhBytes, targetLanguage := enBytes,
          browserSent := [.statusReady] } := by
  have h := c9_active_only_on_session_started.2.2
    { conns := [⟨.opened, []⟩], currentConn := some 0, isSessionActive := false,
      sourceLanguage := zhBytes, targetLanguage := enBytes, browserSent := [] }
    0 ⟨.opened, []⟩ { event := 150 } rfl rfl rfl
  simpa using h

theorem listUpdate_getElem? (l : List UpstreamConn) (j : Nat) (f : UpstreamConn → UpstreamConn)
    (i : Nat) :
    (listUpdate l j f)[i]? = if i = j then (l[j]?).map f else l[i]? := by
  induction l generalizing i j with
  | nil => simp [listUpdate]
  | cons c rest ih =>
    cases j with
    | zero =>
      cases i with
      | zero => simp [listUpdate]
      | succ i => simp [listUpdate]
    | succ j =>
      cases i with
      | zero => simp [listUpdate]
      | succ i => simp [listUpdate, ih]

/-- Updating with a function that never closes a connection (or leaves
its status alone) cannot produce a closed connection at an index that
held a non-closed one. -/
theorem status_after_update_ne_closed {l : List UpstreamConn} {i j : Nat} {c c' : UpstreamConn}
    (f : UpstreamConn → UpstreamConn)
    (hf : ∀ x, (f x).status ≠ .closed ∨ (f x).status = x.status)
    (h1 : l[i]? = some c) (hnc : c.status ≠ .closed)
    (h2 : (listUpdate l j f)[i]? = some c') : c'.status ≠ .closed := by
  rw [listUpdate_getElem?] at h2
  by_cases hij : i = j
  · subst hij
    rw [if_pos rfl, h1] at h2
    simp only [Option.map_some', Option.some.injEq] at h2
    rcases hf c with h | h
    · rw [h2] at h
      exact h
    · rw [h2] at h
      rw [h]
      exact hnc
  · rw [if_neg hij, h1] at h2
    injection h2 with h2
    rw [← h2]
    exact hnc

theorem conn_lookup_absurd {l : List UpstreamConn} {i : Nat} {c c' : UpstreamConn}
    (h1 : l[i]? = some c) (hnc : c.status ≠ .closed)
    (h2 : l[i]? = some c') (h3 : c'.status = .closed) : False := by
  rw [h1] at h2
  injection h2 with h2
  rw [← h2] at h3
  exact hnc h3

theorem handleVolcResponse_conns (s : BridgeState) (r : TranslateResponse) :
    (handleVolcResponse s r).conns = s.conns := by
  simp only [handleVolcResponse]
  repeat' split
  all_goals rfl

/-- The only events that can turn a non-closed upstream connection into
a closed one are the browser disconnecting and that connection's own
close handler firing: no stop request and no decoded upstream lifecycle
event ever closes the transport. -/
theorem stepBridge_close_only (s : BridgeState) (e : BridgeEvent) (i : Nat)
    (c c' : UpstreamConn)
    (h1 : s.conns[i]? = some c) (hnc : c.status ≠ .closed)
    (h2 : (stepBridge s e).conns[i]? = some c') (h3 : c'.status = .closed) :
    e = .browserClose ∨ e = .volcClose i := by
  cases e with
  | browserClose => exact Or.inl rfl
  | browserStart src tgt =>
    exfalso
    simp only [stepBridge] at h2
    rw [List.getElem?_append] at h2
    by_cases hi : i < s.conns.length
    · rw [if_pos hi] at h2
      exact conn_lookup_absurd h1 hnc h2 h3
    · rw [if_neg hi] at h2
      cases hd : i - s.conns.length with
      | zero =>
        rw [hd] at h2
        simp only [List.getElem?_cons_zero, Option.some.injEq] at h2
        rw [← h2] at h3
        exact absurd h3 (by intro h; cases h)
      | succ k =>
        rw [hd] at h2
        simp at h2
  | browserAudio payload =>
    exfalso
    simp only [stepBridge] at h2
    cases hcur : s.currentConn with
    | none =>
      simp only [hcur] at h2
      exact conn_lookup_absurd h1 hnc h2 h3
    | some j =>
      simp only [hcur] at h2
      cases hcj : s.conns[j]? with
      | none =>
        simp only [hcj] at h2
        exact conn_lookup_absurd h1 hnc h2 h3
      | some cj =>
        simp only [hcj] at h2
        by_cases hcond : cj.status = .opened ∧ s.isSessionActive = true
        · rw [if_pos hcond] at h2
          exact (status_after_update_ne_closed
            (fun c => { c with sent := c.sent ++ [audioFrame payload] })
            (fun x => Or.inr rfl) h1 hnc h2) h3
        · rw [if_neg hcond] at h2
          exact conn_lookup_absurd h1 hnc h2 h3
  | browserStop =>
    exfalso
    simp only [stepBridge] at h2
    cases hcur : s.currentConn with
    | none =>
      simp only [hcur] at h2
      exact conn_lookup_absurd h1 hnc h2 h3
    | some j =>
      simp only [hcur] at h2
      cases hcj : s.conns[j]? with
      | none =>
        simp only [hcj] at h2
        exact conn_lookup_absurd h1 hnc h2 h3
      | some cj =>
        simp only [hcj] at h2
        by_cases hcond : cj.status = .opened ∧ s.isSessionActive = true
        · rw [if_pos hcond] at h2
          exact (status_after_update_ne_closed
            (fun c => { c with sent := c.sent ++ [finishSessionFrame] })
            (fun x => Or.inr rfl) h1 hnc h2) h3
        · rw [if_neg hcond] at h2
          exact conn_lookup_absurd h1 hnc h2 h3
  | volcOpen i0 =>
    exfalso
    simp only [stepBridge] at h2
    cases hci0 : s.conns[i0]? with
    | none =>
      simp only [hci0] at h2
      exact conn_lookup_absurd h1 hnc h2 h3
    | some c0 =>
      simp only [hci0] at h2
      by_cases hst : c0.status = .connecting
      · simp only [if_pos hst] at h2
        cases hcur : s.currentConn with
        | none =>
          simp only [hcur] at h2
          exact (status_after_update_ne_closed
            (fun c => { c with status := ConnStatus.opened })
            (fun x => Or.inl (by intro h; cases h)) h1 hnc h2) h3
        | some j =>
          simp only [hcur] at h2
          have hmid : ∃ c1, (listUpdate s.conns i0
              (fun c => { c with status := ConnStatus.opened }))[i]? = some c1
              ∧ c1.status ≠ .closed := by
            rw [listUpdate_getElem?]
            by_cases hij : i = i0
            · subst hij
              rw [if_pos rfl, h1]
              exact ⟨_, rfl, by intro h; cases h⟩
            · rw [if_neg hij]
              exact ⟨c, h1, hnc⟩
          obtain ⟨c1, hm1, hm2⟩ := hmid
          exact (status_after_update_ne_closed
            (fun c => { c with
              sent := c.sent ++ [startSessionFrame s.sourceLanguage s.targetLanguage] })
            (fun x => Or.inr rfl) hm1 hm2 h2) h3
      · simp only [if_neg hst] at h2
        exact conn_lookup_absurd h1 hnc h2 h3
  | volcMessage i0 r =>
    exfalso
    simp only [stepBridge] at h2
    cases hci0 : s.conns[i0]? with
    | none =>
      simp only [hci0] at h2
      exact conn_lookup_absurd h1 hnc h2 h3
    | some c0 =>
      simp only [hci0] at h2
      by_cases hst : c0.status = .opened
      · rw [if_pos hst, handleVolcResponse_conns] at h2
        exact conn_lookup_absurd h1 hnc h2 h3
      · rw [if_neg hst] at h2
        exact conn_lookup_absurd h1 hnc h2 h3
  | volcError i0 message =>
    exfalso
    simp only [stepBridge] at h2
    cases hci0 : s.conns[i0]? with
    | none =>
      simp only [hci0] at h2
      exact conn_lookup_absurd h1 hnc h2 h3
    | some c0 =>
      simp only [hci0] at h2
      exact conn_lookup_absurd h1 hnc h2 h3
  | volcClose j =>
    cases hcj : s.conns[j]? with
    | none =>
      simp only [stepBridge, hcj] at h2
      exact (conn_lookup_absurd h1 hnc h2 h3).elim
    | some cj =>
      by_cases hcl : cj.status = .closed
      · simp only [stepBridge, hcj, if_pos hcl] at h2
        exact (conn_lookup_absurd h1 hnc h2 h3).elim
      · simp only [stepBridge, hcj, if_neg hcl] at h2
        by_cases hij : i = j
        · subst hij
          exact Or.inr rfl
        · rw [listUpdate_getElem?, if_neg hij] at h2
          exact (conn_lookup_absurd h1 hnc h2 h3).elim

theorem listUpdate_map_status (l : List UpstreamConn) (j : Nat) (f : UpstreamConn → UpstreamConn)
    (hf : ∀ x, (f x).status = x.status) :
    (listUpdate l j f).map (fun c => c.status) = l.map (fun c => c.status) := by
  induction l generalizing j with
  | nil => rfl
  | cons c rest ih =>
    cases j with
    | zero => simp [listUpdate, hf]
    | succ j => simp [listUpdate, ih]

/-- C6: corrected.  A stop request does not move the session toward any
Closed state: it changes neither the status of any upstream connection
nor isSessionActive (it at most sends a FinishSession frame), there is
no grace-period timeout anywhere, the upstream SessionFinished event
(152) merely clears isSessionActive and reports turnComplete while
leaving the transport open, and a non-closed upstream connection becomes
closed only when the browser socket closes or that connection's own
close event fires. -/
theorem c6_stop_never_closes_transport :
    (∀ s, (stepBridge s .browserStop).conns.map (fun c => c.status)
          = s.conns.map (fun c => c.status)
        ∧ (stepBridge s .browserStop).isSessionActive = s.isSessionActive)
  ∧ (∀ s i c r, s.conns[i]? = some c → c.status = .opened → r.event = 152 →
      stepBridge s (.volcMessage i r)
        = { s with isSessionActive := false,
                   browserSent := s.browserSent ++ [.turnComplete] })
  ∧ (∀ s e i c c', s.conns[i]? = some c → c.status ≠ .closed →
      (stepBridge s e).conns[i]? = some c' → c'.status = .closed →
      e = .browserClose ∨ e = .volcClose i) := by
  refine ⟨?_, ?_, stepBridge_close_only⟩
  · intro s
    simp only [stepBridge]
    cases hcur : s.currentConn with
    | none => exact ⟨rfl, rfl⟩
    | some j =>
      simp only [hcur]
      cases hcj : s.conns[j]? with
      | none => exact ⟨rfl, rfl⟩
      | some cj =>
        simp only [hcj]
        by_cases hcond : cj.status = .opened ∧ s.isSessionActive = true
        · rw [if_pos hcond]
          exact ⟨listUpdate_map_status s.conns j _ (fun x => rfl), rfl⟩
        · rw [if_neg hcond]
          exact ⟨rfl, rfl⟩
  · intro s i c r hc hst h152
    simp only [stepBridge, hc, if_pos hst, handleVolcResponse,
      if_neg (show ¬ r.event = 150 from by rw [h152]; norm_num),
      if_neg (show ¬ r.event = 153 from by rw [h152]; norm_num),
      if_pos h152]

/-- C6 counterexample: the client starts a session, the upstream opens
and starts it, the client issues stop, and the upstream even sends
SessionFinished - yet the upstream transport is still open (only
isSessionActive was cleared); no timeout exists to force closure. -/
theorem c6_transport_still_open_after_stop :
    (runBridge [.browserStart none none, .volcOpen 0, .volcMessage 0 { event := 150 },
        .browserStop, .volcMessage 0 { event := 152 }]).conns.map (fun c => c.status)
      = [.opened]
    ∧ (runBridge [.browserStart none none, .volcOpen 0, .volcMessage 0 { event := 150 },
        .browserStop, .volcMessage 0 { event := 152 }]).isSessionActive = false :=
  ⟨rfl, rfl⟩

/-- C6 witness: SessionFinished on an open connection only deactivates,
and a connection close event is one of the two closing events. -/
theorem c6_stop_never_closes_transport_witness :
    stepBridge
        { conns := [⟨.opened, []⟩], currentConn := some 0, isSessionActive := true,
          sourceLanguage := zhBytes, targetLanguage := enBytes, browserSent := [] }
        (.volcMessage 0 { event := 152 })
      = { conns := [⟨.opened, []⟩], currentConn := some 0, isSessionActive := false,
          sourceLanguage := zhBytes, targetLanguage := enBytes,
          browserSent := [.turnComplete] }
    ∧ (BridgeEvent.volcClose 0 = .browserClose ∨ BridgeEvent.volcClose 0 = .volcClose 0) := by
  constructor
  · have h := c6_stop_never_closes_transport.2.1
      { conns := [⟨.opened, []⟩], currentConn := some 0, isSessionActive := true,
        sourceLanguage := zhBytes, targetLanguage := enBytes, browserSent := [] }
      0 ⟨.opened, []⟩ { event := 152 } rfl rfl rfl
    simpa using h
  · exact c6_stop_never_closes_transport.2.2
      { conns := [⟨.opened, []⟩], currentConn := some 0, isSessionActive := true,
        sourceLanguage := zhBytes, targetLanguage := enBytes, browserSent := [] }
      (.volcClose 0) 0 ⟨.opened, []⟩ ⟨.closed, []⟩ rfl (by intro h; cases h) rfl rfl

theorem listUpdate_length (l : List UpstreamConn) (j : Nat) (f : UpstreamConn → UpstreamConn) :
    (listUpdate l j f).length = l.length := by
  induction l generalizing j with
  | nil => rfl
  | cons c rest ih =>
    cases j with
    | zero => simp [listUpdate]
    | succ j => simp [listUpdate, ih]

/-- Only a browser start request creates an upstream connection; no
event ever removes one from the list. -/
theorem stepBridge_conns_length (s : BridgeState) (e : BridgeEvent) :
    (stepBridge s e).conns.length
      = s.conns.length + (match e with | .browserStart _ _ => 1 | _ => 0) := by
  cases e with
  | browserStart src tgt => simp [stepBridge]
  | browserAudio payload =>
    simp only [stepBridge]
    repeat' split
    all_goals simp [listUpdate_length]
  | browserStop =>
    simp only [stepBridge]
    repeat' split
    all_goals simp [listUpdate_length]
  | browserClose =>
    simp only [stepBridge]
    repeat' split
    all_goals simp [listUpdate_length]
  | volcOpen i =>
    simp only [stepBridge]
    repeat' split
    all_goals simp [listUpdate_length]
  | volcMessage i r =>
    simp only [stepBridge]
    repeat' split
    all_goals simp [listUpdate_length, handleVolcResponse_conns]
  | volcError i message =>
    simp only [stepBridge]
    repeat' split
    all_goals simp [listUpdate_length]
  | volcClose i =>
    simp only [stepBridge]
    repeat' split
    all_goals simp [listUpdate_length]

theorem countStartEvents_cons (e : BridgeEvent) (evs : List BridgeEvent) :
    countStartEvents (e :: evs)
      = (match e with | .browserStart _ _ => 1 | _ => 0) + countStartEvents evs := by
  simp only [countStartEvents, List.filter_cons]
  cases e <;> simp <;> omega

theorem foldl_conns_length (evs : List BridgeEvent) :
    ∀ s, (evs.foldl stepBridge s).conns.length = s.conns.length + countStartEvents evs := by
  induction evs with
  | nil =>
    intro s
    simp [countStartEvents]
  | cons e t ih =>
    intro s
    rw [List.foldl_cons, ih, stepBridge_conns_length, countStartEvents_cons]
    omega

/-- C7: corrected.  The bridge keeps every upstream connection it ever
created, so at most one upstream connection is open only as long as the
browser issues at most one start request: a second start replaces the
volcWs reference without closing the previous connection, which stays
open (its handlers still attached), breaking the invariant. -/
theorem c7_single_upstream_iff_single_start (evs : List BridgeEvent)
    (h : countStartEvents evs ≤ 1) : openConnCount (runBridge evs) ≤ 1 := by
  have h1 : (runBridge evs).conns.length = countStartEvents evs := by
    have h2 := foldl_conns_length evs initBridge
    simpa [runBridge, initBridge] using h2
  have h3 : openConnCount (runBridge evs) ≤ (runBridge evs).conns.length :=
    List.length_filter_le _ _
  rw [openConnCount] at h3 ⊢
  omega

/-- C7 counterexample: a second start request on the same browser
connection leaves two upstream connections open at once. -/
theorem c7_second_start_leaks_connection :
    openConnCount (runBridge [.browserStart none none, .volcOpen 0,
      .browserStart none none, .volcOpen 1]) = 2 := by
  rfl

/-- C7 witness: with a single start request at most one upstream
connection is open. -/
theorem c7_single_upstream_iff_single_start_witness :
    countStartEvents [BridgeEvent.browserStart none none, .volcOpen 0] ≤ 1
      ∧ openConnCount (runBridge [BridgeEvent.browserStart none none, .volcOpen 0]) ≤ 1 :=
  ⟨by decide, c7_single_upstream_iff_single_start _ (by decide)⟩
